import Mathlib

/-!
# Verification of the victor flow-layout core

A shallow embedding of the box-tree construction and flow (block-and-inline)
layout algorithms of the victor document rendering engine, together with
proofs about the properties claimed of them.

Embedding conventions:

* `Length` (a CSS pixel quantity, `f32` in the source) is embedded with an
  exact rational `px` component; the claims under study are about the
  algebraic structure of the computations, not float rounding.
* Rust panics (`panic!`, `assert!`, `expect`) are embedded as `Except`
  errors with a distinguished error constructor per panic site.
* Recursion through the box tree and the document tree is driven by an
  explicit fuel parameter (structural recursion on `ℕ`), so that every
  definition is executable and kernel-reducible; exhausting fuel is the
  distinguished `outOfFuel` error, which never occurs for sufficient fuel.
* Code of the repository that is not under `src/` (the `layout/mod.rs`
  helpers, `float.rs`, `inline.rs`, the positioned-box module) is modelled
  from the spec; every such definition carries a doc comment starting with
  `Modelled from the spec:`.
-/

namespace Victor

/-! ## Lengths (src/victor/src/style/values/length.rs) -/

/-- CSS pixel length (`struct Length { px: f32 }`), with exact arithmetic. -/
structure Length where
  px : ℚ
deriving DecidableEq

instance : Add Length := ⟨fun a b => ⟨a.px + b.px⟩⟩

instance : Sub Length := ⟨fun a b => ⟨a.px - b.px⟩⟩

instance : Neg Length := ⟨fun a => ⟨-a.px⟩⟩

instance : HMul Length ℚ Length := ⟨fun a r => ⟨a.px * r⟩⟩

instance : HDiv Length ℚ Length := ⟨fun a r => ⟨a.px / r⟩⟩

def Length.zero : Length := ⟨0⟩

/-- `Percentage { unit_value: f32 }`. -/
structure Percentage where
  unit_value : ℚ
deriving DecidableEq

instance : HMul Length Percentage Length := ⟨fun l p => ⟨l.px * p.unit_value⟩⟩

inductive LengthOrPercentage where
  | length (l : Length)
  | percentage (p : Percentage)
deriving DecidableEq

inductive LengthOrPercentageOrAuto where
  | length (l : Length)
  | percentage (p : Percentage)
  | auto
deriving DecidableEq

inductive LengthOrAuto where
  | length (l : Length)
  | auto
deriving DecidableEq

def LengthOrPercentage.percentage_relative_to :
    LengthOrPercentage → Length → Length
  | .length l, _ => l
  | .percentage p, reference => reference * p

def LengthOrPercentageOrAuto.non_auto :
    LengthOrPercentageOrAuto → Option LengthOrPercentage
  | .length l => some (.length l)
  | .percentage p => some (.percentage p)
  | .auto => none

def LengthOrPercentageOrAuto.percentage_relative_to :
    LengthOrPercentageOrAuto → Length → LengthOrAuto
  | .length l, _ => .length l
  | .percentage p, reference => .length (reference * p)
  | .auto, _ => .auto

def LengthOrAuto.auto_is : LengthOrAuto → (Unit → Length) → Length
  | .length l, _ => l
  | .auto, auto_value => auto_value ()

def LengthOrAuto.map : LengthOrAuto → (Length → Length) → LengthOrAuto
  | .length l, f => .length (f l)
  | .auto, _ => .auto

/-! ## Writing modes (src/victor/src/style; used by src/victor/src/geom.rs) -/

inductive WritingMode where
  | horizontalTb
  | verticalRl
  | verticalLr
  | sidewaysRl
  | sidewaysLr
deriving DecidableEq

inductive Direction where
  | ltr
  | rtl
deriving DecidableEq

/-! ## Geometry (src/victor/src/geom.rs) -/

namespace physical

structure Vec2 (α : Type) where
  x : α
  y : α
deriving DecidableEq

structure Sides (α : Type) where
  top : α
  left : α
  bottom : α
  right : α
deriving DecidableEq

end physical

namespace flow_relative

structure Vec2 (α : Type) where
  inline : α
  block : α
deriving DecidableEq

structure Rect (α : Type) where
  start_corner : Vec2 α
  size : Vec2 α
deriving DecidableEq

structure Sides (α : Type) where
  inline_start : α
  inline_end : α
  block_start : α
  block_end : α
deriving DecidableEq

end flow_relative

def physical.Vec2.size_to_flow_relative (v : physical.Vec2 α)
    (mode : WritingMode × Direction) : flow_relative.Vec2 α :=
  match mode with
  | (.horizontalTb, _) => { inline := v.x, block := v.y }
  | _ => { inline := v.y, block := v.x }

def physical.Sides.to_flow_relative (s : physical.Sides α)
    (mode : WritingMode × Direction) : flow_relative.Sides α :=
  let bsbe : α × α :=
    match mode.1 with
    | .horizontalTb => (s.top, s.bottom)
    | .verticalRl | .sidewaysRl => (s.right, s.left)
    | .verticalLr | .sidewaysLr => (s.left, s.right)
  let isie : α × α :=
    match mode with
    | (.horizontalTb, .ltr) => (s.left, s.right)
    | (.horizontalTb, .rtl) => (s.right, s.left)
    | (.verticalRl, .ltr) | (.sidewaysRl, .ltr) | (.verticalLr, .ltr)
    | (.sidewaysLr, .rtl) => (s.top, s.bottom)
    | (.verticalRl, .rtl) | (.sidewaysRl, .rtl) | (.verticalLr, .rtl)
    | (.sidewaysLr, .ltr) => (s.bottom, s.top)
  { inline_start := isie.1, inline_end := isie.2,
    block_start := bsbe.1, block_end := bsbe.2 }

def flow_relative.Sides.map (s : flow_relative.Sides α) (f : α → β) :
    flow_relative.Sides β :=
  { inline_start := f s.inline_start, inline_end := f s.inline_end,
    block_start := f s.block_start, block_end := f s.block_end }

def flow_relative.Sides.inline_sum (s : flow_relative.Sides Length) : Length :=
  s.inline_start + s.inline_end

def flow_relative.Sides.block_sum (s : flow_relative.Sides Length) : Length :=
  s.block_start + s.block_end

def flow_relative.Sides.start_corner (s : flow_relative.Sides α) :
    flow_relative.Vec2 α :=
  { inline := s.inline_start, block := s.block_start }

def flow_relative.Sides.add (a b : flow_relative.Sides Length) :
    flow_relative.Sides Length :=
  { inline_start := a.inline_start + b.inline_start,
    inline_end := a.inline_end + b.inline_end,
    block_start := a.block_start + b.block_start,
    block_end := a.block_end + b.block_end }

instance : Add (flow_relative.Sides Length) := ⟨flow_relative.Sides.add⟩

def flow_relative.Vec2.add (a b : flow_relative.Vec2 Length) :
    flow_relative.Vec2 Length :=
  { inline := a.inline + b.inline, block := a.block + b.block }

instance : Add (flow_relative.Vec2 Length) := ⟨flow_relative.Vec2.add⟩

def flow_relative.Vec2.zero : flow_relative.Vec2 Length :=
  { inline := Length.zero, block := Length.zero }

/-! ## Style values used by box construction and layout

The `Display`, `Position` and float enums live in style files not present
under `src/`; their variants are reconstructed from their uses in
`src/victor/src/layout/boxes/construct.rs` (`Display::None`,
`Display::Contents`, `Display::Other { outside, inside }`,
`DisplayOutside::{Inline, Block}`, `DisplayInside::Flow`,
`position.is_absolutely_positioned()`, `position.is_relatively_positioned()`,
`float.is_floating()`). -/

inductive DisplayInside where
  | flow
deriving DecidableEq

inductive DisplayOutside where
  | inline
  | block
deriving DecidableEq

inductive Display where
  | none
  | contents
  | other (outside : DisplayOutside) (inside : DisplayInside)
deriving DecidableEq

inductive Position where
  | static
  | relative
  | absolute
deriving DecidableEq

def Position.is_absolutely_positioned : Position → Bool
  | .absolute => true
  | _ => false

def Position.is_relatively_positioned : Position → Bool
  | .relative => true
  | _ => false

/-- The CSS `float` property (named `CssFloat` here because `Float` is taken
by Lean). -/
inductive CssFloat where
  | floatNone
  | left
  | right
deriving DecidableEq

def CssFloat.is_floating : CssFloat → Bool
  | .floatNone => false
  | _ => true

/-- The `style.box_` nested struct: display, position, float and the
physical `width`/`height`. -/
structure BoxStyle where
  display : Display
  position : Position
  float : CssFloat
  width : LengthOrPercentageOrAuto
  height : LengthOrPercentageOrAuto
deriving DecidableEq

/-- A computed style snapshot (`ComputedValues`): the fields consumed by box
construction and flow layout.  Padding, border widths and margins are
physical per-side values as in `src/victor/src/style/properties.rs`.
`box_offsets` (the `top`/`left`/`bottom`/`right` inset properties consumed
by relative and absolute positioning, already flow-relative and resolved
to length-or-auto) is modelled from the spec: the style module defining it
is not under `src/`. -/
structure ComputedValues where
  box_ : BoxStyle
  padding_top : LengthOrPercentage
  padding_left : LengthOrPercentage
  padding_bottom : LengthOrPercentage
  padding_right : LengthOrPercentage
  border_top_width : LengthOrPercentage
  border_left_width : LengthOrPercentage
  border_bottom_width : LengthOrPercentage
  border_right_width : LengthOrPercentage
  margin_top : LengthOrPercentageOrAuto
  margin_left : LengthOrPercentageOrAuto
  margin_bottom : LengthOrPercentageOrAuto
  margin_right : LengthOrPercentageOrAuto
  box_offsets : flow_relative.Sides LengthOrAuto
deriving DecidableEq

/-- `ComputedValues::writing_mode` (src/victor/src/style/properties.rs):
only one mode is supported for now. -/
def ComputedValues.writing_mode (_ : ComputedValues) :
    WritingMode × Direction :=
  (.horizontalTb, .ltr)

def ComputedValues.box_size (s : ComputedValues) :
    flow_relative.Vec2 LengthOrPercentageOrAuto :=
  (physical.Vec2.mk s.box_.width s.box_.height).size_to_flow_relative
    s.writing_mode

def ComputedValues.padding (s : ComputedValues) :
    flow_relative.Sides LengthOrPercentage :=
  (physical.Sides.mk s.padding_top s.padding_left s.padding_bottom
    s.padding_right).to_flow_relative s.writing_mode

def ComputedValues.border_width (s : ComputedValues) :
    flow_relative.Sides LengthOrPercentage :=
  (physical.Sides.mk s.border_top_width s.border_left_width
    s.border_bottom_width s.border_right_width).to_flow_relative
    s.writing_mode

def ComputedValues.margin (s : ComputedValues) :
    flow_relative.Sides LengthOrPercentageOrAuto :=
  (physical.Sides.mk s.margin_top s.margin_left s.margin_bottom
    s.margin_right).to_flow_relative s.writing_mode

/-- `Sides::percentages_relative_to` for padding/border sides.
Modelled from the spec: the helper lives in the layout module not under
`src/`; per spec section 4.2 step 1, percentages resolve against the
containing block's inline size. -/
def flow_relative.Sides.percentages_relative_to
    (s : flow_relative.Sides LengthOrPercentage) (basis : Length) :
    flow_relative.Sides Length :=
  s.map (fun v => v.percentage_relative_to basis)

/-- `Sides::percentages_relative_to` for margin sides (auto passes
through). Modelled from the spec, as above. -/
def flow_relative.Sides.percentages_relative_to_auto
    (s : flow_relative.Sides LengthOrPercentageOrAuto) (basis : Length) :
    flow_relative.Sides LengthOrAuto :=
  s.map (fun v => v.percentage_relative_to basis)

/-- `auto_is(Length::zero)` applied to a whole `Sides`. -/
def flow_relative.Sides.auto_is_zero
    (s : flow_relative.Sides LengthOrAuto) : flow_relative.Sides Length :=
  s.map (fun v => v.auto_is fun _ => Length.zero)

/-! ## The box tree (src/victor/src/layout/flow/mod.rs and the
`InlineFormattingContext` family whose fields are fixed by their uses in
src/victor/src/layout/boxes/construct.rs) -/

/-- `ContainsFloats` (src/victor/src/layout/boxes/construct.rs). -/
inductive ContainsFloats where
  | no
  | yes
deriving DecidableEq

/-- `BitOrAssign for ContainsFloats`. -/
def ContainsFloats.or : ContainsFloats → ContainsFloats → ContainsFloats
  | _, .yes => .yes
  | c, .no => c

/-- `TextRun { parent_style, text }` (fields per its construction in
src/victor/src/layout/boxes/construct.rs). -/
structure TextRun where
  parent_style : ComputedValues
  text : String
deriving DecidableEq

mutual

inductive BlockFormattingContext where
  | mk (contents : BlockContainer) (contains_floats : ContainsFloats)

inductive BlockContainer where
  | blockLevelBoxes (child_boxes : List BlockLevelBox)
  | inlineFormattingContext (ifc : InlineFormattingContext)

inductive BlockLevelBox where
  | sameFormattingContextBlock (style : ComputedValues)
      (contents : BlockContainer)
  | outOfFlowAbsolutelyPositionedBox (box : AbsolutelyPositionedBox)
  | outOfFlowFloatBox (box : FloatBox)
  | independent (style : ComputedValues)
      (contents : IndependentFormattingContext)

inductive IndependentFormattingContext where
  | flow (bfc : BlockFormattingContext)

inductive AbsolutelyPositionedBox where
  | mk (style : ComputedValues) (contents : IndependentFormattingContext)

inductive FloatBox where
  | mk (style : ComputedValues) (contents : IndependentFormattingContext)

inductive InlineFormattingContext where
  | mk (inline_level_boxes : List InlineLevelBox)

inductive InlineLevelBox where
  | textRun (t : TextRun)
  | inlineBox (b : InlineBox)
  | outOfFlowAbsolutelyPositionedBox (box : AbsolutelyPositionedBox)
  | outOfFlowFloatBox (box : FloatBox)

inductive InlineBox where
  | mk (style : ComputedValues) (first_fragment : Bool)
      (last_fragment : Bool) (children : List InlineLevelBox)

end

def BlockFormattingContext.contents : BlockFormattingContext → BlockContainer
  | .mk c _ => c

def BlockFormattingContext.contains_floats :
    BlockFormattingContext → ContainsFloats
  | .mk _ cf => cf

def AbsolutelyPositionedBox.style : AbsolutelyPositionedBox → ComputedValues
  | .mk s _ => s

def AbsolutelyPositionedBox.contents :
    AbsolutelyPositionedBox → IndependentFormattingContext
  | .mk _ c => c

def FloatBox.style : FloatBox → ComputedValues
  | .mk s _ => s

def FloatBox.contents : FloatBox → IndependentFormattingContext
  | .mk _ c => c

def InlineFormattingContext.inline_level_boxes :
    InlineFormattingContext → List InlineLevelBox
  | .mk bs => bs

def InlineBox.style : InlineBox → ComputedValues
  | .mk s _ _ _ => s

def InlineBox.first_fragment : InlineBox → Bool
  | .mk _ f _ _ => f

def InlineBox.last_fragment : InlineBox → Bool
  | .mk _ _ l _ => l

def InlineBox.children : InlineBox → List InlineLevelBox
  | .mk _ _ _ c => c

/-! ## Fragments

Modelled from the spec: the `Fragment` enum consumed by
src/victor/src/layout/flow/mod.rs is defined in a layout module not under
`src/` (the `fragments.rs` under `src/` is an earlier revision).  Spec
section 3 fixes the shape: `Box{style, children, content_rect, padding,
border, margin}` or `Anonymous{rect}` (a no-op placeholder); the
`Anonymous` variant also records children and the writing mode, per its
uses in flow/mod.rs (`AnonymousFragment::no_op(containing_block.mode)`). -/

mutual

inductive Fragment where
  | box (f : BoxFragment)
  | anonymous (f : AnonymousFragment)

inductive BoxFragment where
  | mk (style : ComputedValues) (children : List Fragment)
      (content_rect : flow_relative.Rect Length)
      (padding : flow_relative.Sides Length)
      (border : flow_relative.Sides Length)
      (margin : flow_relative.Sides Length)

inductive AnonymousFragment where
  | mk (rect : flow_relative.Rect Length) (children : List Fragment)
      (mode : WritingMode × Direction)

end

def BoxFragment.style : BoxFragment → ComputedValues
  | .mk s _ _ _ _ _ => s

def BoxFragment.children : BoxFragment → List Fragment
  | .mk _ c _ _ _ _ => c

def BoxFragment.content_rect : BoxFragment → flow_relative.Rect Length
  | .mk _ _ r _ _ _ => r

def BoxFragment.padding : BoxFragment → flow_relative.Sides Length
  | .mk _ _ _ p _ _ => p

def BoxFragment.border : BoxFragment → flow_relative.Sides Length
  | .mk _ _ _ _ b _ => b

def BoxFragment.margin : BoxFragment → flow_relative.Sides Length
  | .mk _ _ _ _ _ m => m

def AnonymousFragment.rect : AnonymousFragment → flow_relative.Rect Length
  | .mk r _ _ => r

def AnonymousFragment.children : AnonymousFragment → List Fragment
  | .mk _ c _ => c

def AnonymousFragment.mode : AnonymousFragment → WritingMode × Direction
  | .mk _ _ m => m

/-- Modelled from the spec: an anonymous fragment that contributes no
visible box at its own position (zero rect, no children). -/
def AnonymousFragment.no_op (mode : WritingMode × Direction) :
    AnonymousFragment :=
  .mk { start_corner := flow_relative.Vec2.zero,
        size := flow_relative.Vec2.zero } [] mode

/-- `AbsoluteBoxOffsets`: one absolute-positioning inset, either resolved
(start/end of the containing block) or an unresolved static-position start.
Modelled from the spec: the positioned-box module is not under `src/`; the
`StaticStart { start }` variant and its patching are fixed by
src/victor/src/layout/flow/mod.rs lines 78-88. -/
inductive AbsoluteBoxOffsets where
  | staticStart (start : Length)
  | fromStart (s : Length)
  | fromEnd (e : Length)
deriving DecidableEq

/-- Modelled from the spec: a pending absolutely-positioned fragment
carries an unresolved `tree_rank` (index among the ancestor container's
direct children) and its static-position start offsets (spec section 3). -/
structure AbsolutelyPositionedFragment where
  tree_rank : ℕ
  inline_start : AbsoluteBoxOffsets
  block_start : AbsoluteBoxOffsets
deriving DecidableEq

/-- Modelled from the spec: `AbsolutelyPositionedBox::layout` produces the
pending fragment for a box whose static position is the given initial start
corner: an inset specified as a length resolves to a `fromStart` offset, an
auto inset with a specified opposite inset resolves to `fromEnd`, and a
fully auto axis keeps the unresolved static-position start (spec sections
3 and 4.2). -/
def AbsolutelyPositionedBox.layout (b : AbsolutelyPositionedBox)
    (initial_start_corner : flow_relative.Vec2 Length) (tree_rank : ℕ) :
    AbsolutelyPositionedFragment :=
  let offsets := b.style.box_offsets
  let axis : LengthOrAuto → LengthOrAuto → Length → AbsoluteBoxOffsets :=
    fun s e static =>
      match s, e with
      | .length l, _ => .fromStart l
      | .auto, .length l => .fromEnd l
      | .auto, .auto => .staticStart static
  { tree_rank := tree_rank,
    inline_start := axis offsets.inline_start offsets.inline_end
      initial_start_corner.inline,
    block_start := axis offsets.block_start offsets.block_end
      initial_start_corner.block }

/-! ## Float context

Modelled from the spec: src/victor/src/layout/flow/float.rs is not under
`src/`.  Spec section 4.3 fixes the consumed operations: `root`,
`child(inline_size, start_corner)` (a nested float context scoped to a
child's containing block) and `advance_block_start(distance)` (commit
vertical progress).  The internal band-tracking state is outside the
spec's detailed scope; none of the verified claims depend on it. -/

structure FloatList where
  deriving DecidableEq

structure FloatContext where
  inline_size : Length
  block_start : Length
deriving DecidableEq

def FloatContext.root (inline_size : Length) (_list : FloatList) :
    FloatContext :=
  { inline_size := inline_size, block_start := Length.zero }

def FloatContext.child (fc : FloatContext) (inline_size : Length)
    (start_corner : flow_relative.Vec2 Length) : FloatContext :=
  { inline_size := inline_size,
    block_start := fc.block_start - start_corner.block }

def FloatContext.advance_block_start (fc : FloatContext) (d : Length) :
    FloatContext :=
  { fc with block_start := fc.block_start + d }

/-- Modelled from the spec: `ContainsFloats::into_list` — a float list is
established exactly when the formatting context contains floats (spec
section 4.2: "Top-level entry establishes a float context iff
`contains_floats`"). -/
def ContainsFloats.into_list : ContainsFloats → Option FloatList
  | .no => none
  | .yes => some {}

/-- `ContainingBlock` per spec section 3 (its defining module is not under
`src/`): inline size, block size (possibly auto) and writing mode. -/
structure ContainingBlock where
  inline_size : Length
  block_size : LengthOrAuto
  mode : WritingMode × Direction
deriving DecidableEq

/-- Layout failures: fuel exhaustion (embedding harness), the
float-in-parallel panic, the mixed-writing-modes assertion, and an
out-of-bounds `child_fragments[tree_rank]` index. -/
inductive LayoutError where
  | outOfFuel
  | floatInParallel
  | mixedWritingModes
  | fragmentIndex
deriving DecidableEq

/-- The result triple of a block-container layout call:
`(fragments, pending absolutely-positioned fragments, content block size)`. -/
abbrev LayoutResult :=
  List Fragment × List AbsolutelyPositionedFragment × Length

/-- Modelled from the spec: the relative-position adjustment applied to a
box's own content-rect origin (spec section 4.2 step 8: "origin adjusted
by any relative-position offset"); zero unless the box is relatively
positioned, otherwise the CSS resolution of the inset pair on each axis. -/
def relative_adjustement (style : ComputedValues) (_inline_size : Length)
    (_block_size : LengthOrAuto) : flow_relative.Vec2 Length :=
  if style.box_.position.is_relatively_positioned then
    let adjust : LengthOrAuto → LengthOrAuto → Length := fun s e =>
      match s, e with
      | .auto, .auto => Length.zero
      | .auto, .length l => -l
      | .length l, _ => l
    { inline := adjust style.box_offsets.inline_start
        style.box_offsets.inline_end,
      block := adjust style.box_offsets.block_start
        style.box_offsets.block_end }
  else
    flow_relative.Vec2.zero

/-- Modelled from the spec: a relatively positioned box resolves its own
pending absolutely-positioned descendants itself — they are consumed here
rather than bubbled to the caller (spec section 4.2 step 7).  The claims
under study depend only on the pending list being consumed, not on the
geometry of the resolved fragments, so the child fragment list is returned
unchanged. -/
def AbsolutelyPositionedFragment.in_positioned_containing_block
    (_nested : List AbsolutelyPositionedFragment) (children : List Fragment)
    (_size : flow_relative.Vec2 Length)
    (_padding : flow_relative.Sides Length)
    (_mode : WritingMode × Direction) : List Fragment :=
  children

/-- `in_flow_non_replaced` (src/victor/src/layout/flow/mod.rs lines
240-329): CSS2 block width/height resolution for one in-flow non-replaced
block.  `layout_contents` is the recursion into the box's own contents;
the returned list is the nested pending absolutely-positioned fragments
this call bubbles to the caller (the source extends the caller's
accumulator in place).  The `assert_eq!` on writing modes becomes the
`mixedWritingModes` error. -/
def in_flow_non_replaced (containing_block : ContainingBlock)
    (style : ComputedValues)
    (layout_contents : ContainingBlock → flow_relative.Vec2 Length →
      Except LayoutError LayoutResult) :
    Except LayoutError (Fragment × List AbsolutelyPositionedFragment) :=
  let cbis := containing_block.inline_size
  let padding := style.padding.percentages_relative_to cbis
  let border := style.border_width.percentages_relative_to cbis
  let computed_margin := style.margin.percentages_relative_to_auto cbis
  let pb := padding + border
  let box_size := style.box_size
  let inline_size := box_size.inline.percentage_relative_to cbis
  let computed_margin :=
    match inline_size with
    | .length is =>
      let inline_margins := cbis - is - pb.inline_sum
      match computed_margin.inline_start, computed_margin.inline_end with
      | .auto, .auto =>
        { computed_margin with
          inline_start := LengthOrAuto.length (inline_margins / (2 : ℚ)),
          inline_end := LengthOrAuto.length (inline_margins / (2 : ℚ)) }
      | .auto, _ =>
        { computed_margin with
          inline_start := LengthOrAuto.length inline_margins }
      | _, _ =>
        -- Either the inline-end margin is auto,
        -- or we are over-constrained and we do as if it were.
        { computed_margin with
          inline_end := LengthOrAuto.length inline_margins }
    | .auto => computed_margin
  let margin := computed_margin.auto_is_zero
  let pbm := pb + margin
  let inline_size := inline_size.auto_is fun _ => cbis - pbm.inline_sum
  let block_size : LengthOrAuto :=
    match box_size.block with
    | .length l => .length l
    | .percentage p => containing_block.block_size.map fun cbbs => cbbs * p
    | .auto => .auto
  let containing_block_for_children : ContainingBlock :=
    { inline_size := inline_size, block_size := block_size,
      mode := style.writing_mode }
  -- assert_eq!(containing_block.mode, containing_block_for_children.mode,
  --            "Mixed writing modes are not supported yet")
  if containing_block.mode ≠ containing_block_for_children.mode then
    .error .mixedWritingModes
  else
    let start_corner := pbm.start_corner
    match layout_contents containing_block_for_children start_corner with
    | .error e => .error e
    | .ok (children, nested_abspos, content_block_size) =>
      let relative_adjustment :=
        relative_adjustement style inline_size block_size
      let block_size := block_size.auto_is fun _ => content_block_size
      let content_rect : flow_relative.Rect Length :=
        { start_corner := start_corner + relative_adjustment,
          size := { block := block_size, inline := inline_size } }
      let resolved :=
        if style.box_.position.is_relatively_positioned then
          (AbsolutelyPositionedFragment.in_positioned_containing_block
            nested_abspos children content_rect.size padding
            containing_block_for_children.mode,
           ([] : List AbsolutelyPositionedFragment))
        else
          (children, nested_abspos)
      .ok (Fragment.box (BoxFragment.mk style resolved.1 content_rect
             padding border margin),
           resolved.2)

/-! ## Flow layout (src/victor/src/layout/flow/mod.rs lines 42-236)

Inline-formatting-context layout (`ifc.layout(containing_block,
tree_rank)`) lives in src/victor/src/layout/flow/inline.rs, which is not
under `src/`; it is kept abstract as the `ifcL` parameter, so every
theorem below holds for every inline layout semantics. -/

/-- The (abstract) inline-formatting-context layout algorithm. -/
abbrev IfcLayout :=
  InlineFormattingContext → ContainingBlock → ℕ → LayoutResult

/-- Effectful map over a list, short-circuiting on the first error (the
embedding of rayon's all-or-panic parallel map: results keep index
order). -/
def mapM_except (f : α → Except ε β) : List α → Except ε (List β)
  | [] => .ok []
  | x :: xs =>
    match f x with
    | .error e => .error e
    | .ok y =>
      match mapM_except f xs with
      | .error e => .error e
      | .ok ys => .ok (y :: ys)

/-- `iter().enumerate()` starting at index `i`. -/
def enumerate_from (i : ℕ) : List α → List (ℕ × α)
  | [] => []
  | x :: xs => (i, x) :: enumerate_from (i + 1) xs

/-- `adjust_block_axis` (src/victor/src/layout/flow/mod.rs lines 105-121):
stack one fragment at the current content-block-size accumulator.  Returns
the shifted fragment, the new accumulator, and the fragment's total block
size (its return value, fed to `advance_block_start` on the sequential
path). -/
def adjust_block_axis (fragment : Fragment) (content_block_size : Length) :
    Fragment × Length × Length :=
  match fragment with
  | .box f =>
    let bpm := f.padding.block_sum + f.border.block_sum + f.margin.block_sum
    -- FIXME in source: margin collapsing
    let rect :=
      { f.content_rect with
        start_corner :=
          { f.content_rect.start_corner with
            block := f.content_rect.start_corner.block +
              content_block_size } }
    let fragment_total_block_size := bpm + rect.size.block
    (.box (BoxFragment.mk f.style f.children rect f.padding f.border
        f.margin),
     content_block_size + fragment_total_block_size,
     fragment_total_block_size)
  | .anonymous a =>
    let rect :=
      { a.rect with
        start_corner :=
          { a.rect.start_corner with
            block := a.rect.start_corner.block + content_block_size } }
    let fragment_total_block_size := Length.zero + rect.size.block
    (.anonymous (AnonymousFragment.mk rect a.children a.mode),
     content_block_size + fragment_total_block_size,
     fragment_total_block_size)

/-- The parallel path's post-pass: `for fragment in &mut child_fragments {
adjust_block_axis(fragment, &mut content_block_size) }`. -/
def adjust_block_axis_all :
    List Fragment → Length → List Fragment × Length
  | [], content_block_size => ([], content_block_size)
  | fragment :: rest, content_block_size =>
    let step := adjust_block_axis fragment content_block_size
    let tail := adjust_block_axis_all rest step.2.1
    (step.1 :: tail.1, tail.2)

/-- The body of the pending-fragment patch loop in `BlockContainer::layout`
(src/victor/src/layout/flow/mod.rs lines 69-89): look up the child fragment
at the pending fragment's `tree_rank`, re-tag the fragment with the
caller's `tree_rank`, and add the child fragment's start corner to each
offset that is still an unresolved `StaticStart`. -/
def patch_abspos_fragment (child_fragments : List Fragment)
    (tree_rank : ℕ) (f : AbsolutelyPositionedFragment) :
    Except LayoutError AbsolutelyPositionedFragment :=
  match child_fragments.get? f.tree_rank with
  | none => throw .fragmentIndex
  | some frag =>
    let child_fragment_rect :=
      match frag with
      | .box b => b.content_rect
      | .anonymous a => a.rect
    pure
      { tree_rank := tree_rank,
        inline_start :=
          match f.inline_start with
          | .staticStart s =>
            .staticStart (s + child_fragment_rect.start_corner.inline)
          | o => o,
        block_start :=
          match f.block_start with
          | .staticStart s =>
            .staticStart (s + child_fragment_rect.start_corner.block)
          | o => o }

mutual

/-- `BlockFormattingContext::layout` (src/victor/src/layout/flow/mod.rs
lines 42-55): establish a float context iff `contains_floats`, then lay
out the contents. -/
def BlockFormattingContext.layout (ifcL : IfcLayout) :
    ℕ → BlockFormattingContext → ContainingBlock → ℕ →
    Except LayoutError LayoutResult
  | 0, _, _, _ => throw .outOfFuel
  | fuel + 1, bfc, containing_block, tree_rank =>
    let float_list := bfc.contains_floats.into_list
    let float_context :=
      float_list.map fun list =>
        FloatContext.root containing_block.inline_size list
    BlockContainer.layout ifcL fuel bfc.contents containing_block
      tree_rank float_context

  termination_by structural fuel => fuel

/-- `BlockContainer::layout` (src/victor/src/layout/flow/mod.rs lines
57-97): lay out the children, then patch every pending
absolutely-positioned fragment against the child geometry. -/
def BlockContainer.layout (ifcL : IfcLayout) :
    ℕ → BlockContainer → ContainingBlock → ℕ → Option FloatContext →
    Except LayoutError LayoutResult
  | 0, _, _, _, _ => throw .outOfFuel
  | fuel + 1, container, containing_block, tree_rank, float_context =>
    match container with
    | .blockLevelBoxes child_boxes => do
      let (child_fragments, absolutely_positioned_fragments,
           content_block_size) ←
        layout_block_level_children ifcL fuel containing_block child_boxes
          float_context
      let patched ← mapM_except
        (patch_abspos_fragment child_fragments tree_rank)
        absolutely_positioned_fragments
      let block_size :=
        containing_block.block_size.auto_is fun _ => content_block_size
      pure (child_fragments, patched, block_size)
    | .inlineFormattingContext ifc =>
      pure (ifcL ifc containing_block tree_rank)

  termination_by structural fuel => fuel

/-- `layout_block_level_children` (src/victor/src/layout/flow/mod.rs lines
100-236): the sequential (float-context) path or the parallel path
(order-preserving parallel map whose local pending-abspos lists are
appended in sibling order on reduce, followed by the sequential block-axis
post-pass). -/
def layout_block_level_children (ifcL : IfcLayout) :
    ℕ → ContainingBlock → List BlockLevelBox → Option FloatContext →
    Except LayoutError LayoutResult
  | 0, _, _, _ => throw .outOfFuel
  | fuel + 1, containing_block, child_boxes, float_context =>
    match float_context with
    | some float_context =>
      layout_children_sequential ifcL fuel containing_block child_boxes 0
        float_context Length.zero [] []
    | none => do
      let results ← mapM_except
        (fun p => layout_block_level_box ifcL fuel containing_block p.2 p.1)
        (enumerate_from 0 child_boxes)
      let child_fragments := results.map Prod.fst
      let absolutely_positioned_fragments := (results.map Prod.snd).flatten
      let adjusted := adjust_block_axis_all child_fragments Length.zero
      pure (adjusted.1, absolutely_positioned_fragments, adjusted.2)

  termination_by structural fuel => fuel

/-- One step of the sequential (float-context) loop of
`layout_block_level_children`: lay out the child, stack it on the block
axis, advance the float context by the child's total block size. -/
def layout_children_sequential (ifcL : IfcLayout) :
    ℕ → ContainingBlock → List BlockLevelBox → ℕ → FloatContext →
    Length → List Fragment → List AbsolutelyPositionedFragment →
    Except LayoutError LayoutResult
  | 0, _, _, _, _, _, _, _ => throw .outOfFuel
  | _ + 1, _, [], _, _, content_block_size, fragments, abspos =>
    pure (fragments, abspos, content_block_size)
  | fuel + 1, containing_block, box_ :: rest, tree_rank, float_context,
      content_block_size, fragments, abspos => do
    let (fragment, new_abspos) ←
      layout_block_level_box_sequential ifcL fuel containing_block box_
        tree_rank float_context
    let step := adjust_block_axis fragment content_block_size
    let float_context := float_context.advance_block_start step.2.2
    layout_children_sequential ifcL fuel containing_block rest
      (tree_rank + 1) float_context step.2.1 (fragments ++ [step.1])
      (abspos ++ new_abspos)

  termination_by structural fuel => fuel

/-- The per-child match of the parallel path of
`layout_block_level_children` (src/victor/src/layout/flow/mod.rs lines
181-216).  A float box is the
`panic!("encountered a float box in parallel layout")`. -/
def layout_block_level_box (ifcL : IfcLayout) :
    ℕ → ContainingBlock → BlockLevelBox → ℕ →
    Except LayoutError (Fragment × List AbsolutelyPositionedFragment)
  | 0, _, _, _ => throw .outOfFuel
  | fuel + 1, containing_block, box_, tree_rank =>
    match box_ with
    | .sameFormattingContextBlock style contents =>
      in_flow_non_replaced containing_block style
        fun containing_block _start_corner =>
          BlockContainer.layout ifcL fuel contents containing_block
            tree_rank none
    | .independent style contents =>
      -- `contents.as_replaced()` always returns `Err`: the replaced-content
      -- type is empty, so the `Ok` arm matches nothing.
      in_flow_non_replaced containing_block style
        fun containing_block _start_corner =>
          IndependentFormattingContext.layout ifcL fuel contents
            containing_block tree_rank
    | .outOfFlowAbsolutelyPositionedBox b =>
      pure (Fragment.anonymous (AnonymousFragment.no_op
              containing_block.mode),
            [b.layout flow_relative.Vec2.zero tree_rank])
    | .outOfFlowFloatBox _ => throw .floatInParallel

  termination_by structural fuel => fuel

/-- The per-child match of the sequential (float-context) path of
`layout_block_level_children` (src/victor/src/layout/flow/mod.rs lines
130-168).  A same-formatting-context block recurses with a nested float
context; a float box is still TODO in the source and produces a no-op
anonymous fragment. -/
def layout_block_level_box_sequential (ifcL : IfcLayout) :
    ℕ → ContainingBlock → BlockLevelBox → ℕ → FloatContext →
    Except LayoutError (Fragment × List AbsolutelyPositionedFragment)
  | 0, _, _, _, _ => throw .outOfFuel
  | fuel + 1, containing_block, box_, tree_rank, float_context =>
    match box_ with
    | .sameFormattingContextBlock style contents =>
      in_flow_non_replaced containing_block style
        fun containing_block start_corner =>
          BlockContainer.layout ifcL fuel contents containing_block
            tree_rank
            (some (float_context.child containing_block.inline_size
              start_corner))
    | .independent style contents =>
      in_flow_non_replaced containing_block style
        fun containing_block _start_corner =>
          IndependentFormattingContext.layout ifcL fuel contents
            containing_block tree_rank
    | .outOfFlowAbsolutelyPositionedBox b =>
      pure (Fragment.anonymous (AnonymousFragment.no_op
              containing_block.mode),
            [b.layout flow_relative.Vec2.zero tree_rank])
    | .outOfFlowFloatBox _ =>
      -- TODO in the source
      pure (Fragment.anonymous (AnonymousFragment.no_op
              containing_block.mode), [])

  termination_by structural fuel => fuel

/-- Modelled from the spec: an independent formatting context is laid out
by entering its own block formatting context, which establishes its own
float context from its own `contains_floats` flag (spec section 4.2). -/
def IndependentFormattingContext.layout (ifcL : IfcLayout) :
    ℕ → IndependentFormattingContext → ContainingBlock → ℕ →
    Except LayoutError LayoutResult
  | 0, _, _, _ => throw .outOfFuel
  | fuel + 1, .flow bfc, containing_block, tree_rank =>
    BlockFormattingContext.layout ifcL fuel bfc containing_block tree_rank
  termination_by structural fuel => fuel

end

/-! ## Small reduction helpers and sample inputs -/

attribute [simp] LengthOrPercentage.percentage_relative_to
  LengthOrPercentageOrAuto.percentage_relative_to
  LengthOrPercentageOrAuto.non_auto LengthOrAuto.auto_is LengthOrAuto.map
  physical.Vec2.size_to_flow_relative physical.Sides.to_flow_relative
  flow_relative.Sides.map flow_relative.Sides.inline_sum
  flow_relative.Sides.block_sum flow_relative.Sides.start_corner
  flow_relative.Vec2.zero ComputedValues.writing_mode
  ComputedValues.box_size ComputedValues.padding
  ComputedValues.border_width ComputedValues.margin
  flow_relative.Sides.percentages_relative_to
  flow_relative.Sides.percentages_relative_to_auto
  flow_relative.Sides.auto_is_zero Position.is_absolutely_positioned
  Position.is_relatively_positioned CssFloat.is_floating
  ContainsFloats.or ContainsFloats.into_list
  BlockFormattingContext.contents BlockFormattingContext.contains_floats
  AbsolutelyPositionedBox.style AbsolutelyPositionedBox.contents
  FloatBox.style FloatBox.contents
  InlineFormattingContext.inline_level_boxes InlineBox.style
  InlineBox.first_fragment InlineBox.last_fragment InlineBox.children
  BoxFragment.style BoxFragment.children BoxFragment.content_rect
  BoxFragment.padding BoxFragment.border BoxFragment.margin
  AnonymousFragment.rect AnonymousFragment.children AnonymousFragment.mode
  AnonymousFragment.no_op AbsolutelyPositionedBox.layout
  FloatContext.root FloatContext.child FloatContext.advance_block_start
  relative_adjustement
  AbsolutelyPositionedFragment.in_positioned_containing_block

@[simp]
theorem Length.add_def (a b : Length) : a + b = ⟨a.px + b.px⟩ := rfl

@[simp]
theorem Length.sub_def (a b : Length) : a - b = ⟨a.px - b.px⟩ := rfl

@[simp]
theorem Length.neg_def (a : Length) : -a = ⟨-a.px⟩ := rfl

@[simp]
theorem Length.div_def (a : Length) (r : ℚ) : a / r = ⟨a.px / r⟩ := rfl

@[simp]
theorem Length.mul_def (a : Length) (r : ℚ) : a * r = ⟨a.px * r⟩ := rfl

@[simp]
theorem Length.mul_percentage_def (a : Length) (p : Percentage) :
    a * p = ⟨a.px * p.unit_value⟩ := rfl

@[simp]
theorem Length.zero_def : Length.zero = ⟨0⟩ := rfl

@[simp]
theorem flow_relative.Sides.sides_add_def (a b : flow_relative.Sides Length) :
    a + b =
      { inline_start := a.inline_start + b.inline_start,
        inline_end := a.inline_end + b.inline_end,
        block_start := a.block_start + b.block_start,
        block_end := a.block_end + b.block_end } := rfl

@[simp]
theorem flow_relative.Vec2.vec2_add_def (a b : flow_relative.Vec2 Length) :
    a + b = { inline := a.inline + b.inline, block := a.block + b.block } :=
  rfl

@[simp]
theorem except_bind_ok (a : α) (k : α → Except ε β) :
    (Except.ok a >>= k) = k a := rfl

@[simp]
theorem except_bind_error (e : ε) (k : α → Except ε β) :
    ((Except.error e : Except ε α) >>= k) = Except.error e := rfl

@[simp]
theorem except_pure_eq_ok (a : α) : (pure a : Except ε α) = Except.ok a := rfl

/-- A baseline style: in-flow block, static position, no floats, auto
size, zero padding/border/margin, fully auto insets. -/
def baseStyle : ComputedValues :=
  { box_ := { display := .other .block .flow, position := .static,
              float := .floatNone, width := .auto, height := .auto },
    padding_top := .length Length.zero, padding_left := .length Length.zero,
    padding_bottom := .length Length.zero,
    padding_right := .length Length.zero,
    border_top_width := .length Length.zero,
    border_left_width := .length Length.zero,
    border_bottom_width := .length Length.zero,
    border_right_width := .length Length.zero,
    margin_top := .auto, margin_left := .auto,
    margin_bottom := .auto, margin_right := .auto,
    box_offsets := { inline_start := .auto, inline_end := .auto,
                     block_start := .auto, block_end := .auto } }

/-- A containing block of inline size 100 with the supported writing
mode. -/
def sampleCB : ContainingBlock :=
  { inline_size := ⟨100⟩, block_size := .auto,
    mode := (.horizontalTb, .ltr) }

/-- A contents-layout callback producing no children (an empty block). -/
def emptyContents :
    ContainingBlock → flow_relative.Vec2 Length →
    Except LayoutError LayoutResult :=
  fun _ _ => .ok ([], [], Length.zero)

/-! ## C9: the mixed-writing-modes assertion -/

/-- C9: for every in-flow block laid out by `in_flow_non_replaced`, a child
writing mode different from the containing block's aborts the call with
the distinguishable `mixedWritingModes` failure before any geometry is
produced; when the modes agree, that failure is never raised on this path
(it can only bubble out of the recursion into the contents). -/
theorem in_flow_non_replaced_mixed_writing_modes (cb : ContainingBlock)
    (style : ComputedValues)
    (f : ContainingBlock → flow_relative.Vec2 Length →
      Except LayoutError LayoutResult) :
    (cb.mode ≠ style.writing_mode →
      in_flow_non_replaced cb style f = .error .mixedWritingModes) ∧
    (cb.mode = style.writing_mode →
      (∀ cb' sc, f cb' sc ≠ .error .mixedWritingModes) →
      in_flow_non_replaced cb style f ≠ .error .mixedWritingModes) := by
  constructor
  · intro h
    simp only [in_flow_non_replaced]
    rw [if_pos h]
  · intro h hf
    simp only [in_flow_non_replaced, h, ne_eq, not_true_eq_false, if_false,
      reduceIte]
    generalize ({ inline_size := _, block_size := _, mode := _ } :
      ContainingBlock) = cb2
    generalize flow_relative.Sides.start_corner _ = sc
    cases hres : f cb2 sc with
    | error e =>
      have := hf cb2 sc
      simp_all
    | ok r =>
      obtain ⟨children, nested, cbs⟩ := r
      simp

/-- Witness for C9: both directions at concrete inputs — an unsupported
vertical containing block aborts, and the supported mode with empty
contents does not produce the mixed-writing-modes failure. -/
theorem in_flow_non_replaced_mixed_writing_modes_witness :
    in_flow_non_replaced
      { inline_size := ⟨100⟩, block_size := .auto,
        mode := (.verticalRl, .ltr) } baseStyle emptyContents =
      .error .mixedWritingModes ∧
    in_flow_non_replaced sampleCB baseStyle emptyContents ≠
      .error .mixedWritingModes := by
  constructor
  · exact (in_flow_non_replaced_mixed_writing_modes _ baseStyle
      emptyContents).1 (by decide)
  · exact (in_flow_non_replaced_mixed_writing_modes sampleCB baseStyle
      emptyContents).2 (by decide) (fun cb' sc => by simp [emptyContents])

/-! ## C3: inline margin resolution for definite used inline sizes -/

/-- C3 (amended): for an in-flow non-replaced block with definite used
inline size `W` in a containing block of inline size `C`: both inline
margins auto resolve to half the slack `C - W - padding - border` each;
a lone auto inline-start margin absorbs all the slack; when inline-start
is not auto (including the over-constrained case) the inline-end margin
is overwritten with the slack; and for a block that is not relatively
positioned the fragment's content-rect inline start offset equals
inline-start margin + padding + border (a relatively positioned block is
additionally shifted by its relative-position adjustment). -/
theorem in_flow_inline_margin_resolution (cb : ContainingBlock)
    (style : ComputedValues) (W : Length)
    (f : ContainingBlock → flow_relative.Vec2 Length →
      Except LayoutError LayoutResult)
    (frag : BoxFragment) (out : List AbsolutelyPositionedFragment)
    (hW : style.box_size.inline.percentage_relative_to cb.inline_size =
      .length W)
    (hok : in_flow_non_replaced cb style f = .ok (.box frag, out)) :
    frag.padding = style.padding.percentages_relative_to cb.inline_size ∧
    frag.border =
      style.border_width.percentages_relative_to cb.inline_size ∧
    ((style.margin.percentages_relative_to_auto
        cb.inline_size).inline_start = .auto →
     (style.margin.percentages_relative_to_auto
        cb.inline_size).inline_end = .auto →
      frag.margin.inline_start =
        (cb.inline_size - W -
          (style.padding.percentages_relative_to cb.inline_size +
           style.border_width.percentages_relative_to
             cb.inline_size).inline_sum) / (2 : ℚ) ∧
      frag.margin.inline_end =
        (cb.inline_size - W -
          (style.padding.percentages_relative_to cb.inline_size +
           style.border_width.percentages_relative_to
             cb.inline_size).inline_sum) / (2 : ℚ)) ∧
    ((style.margin.percentages_relative_to_auto
        cb.inline_size).inline_start = .auto →
     (style.margin.percentages_relative_to_auto
        cb.inline_size).inline_end ≠ .auto →
      frag.margin.inline_start =
        cb.inline_size - W -
          (style.padding.percentages_relative_to cb.inline_size +
           style.border_width.percentages_relative_to
             cb.inline_size).inline_sum) ∧
    ((style.margin.percentages_relative_to_auto
        cb.inline_size).inline_start ≠ .auto →
      frag.margin.inline_end =
        cb.inline_size - W -
          (style.padding.percentages_relative_to cb.inline_size +
           style.border_width.percentages_relative_to
             cb.inline_size).inline_sum) ∧
    (style.box_.position.is_relatively_positioned = false →
      frag.content_rect.start_corner.inline =
        frag.margin.inline_start + frag.padding.inline_start +
          frag.border.inline_start) := by
  simp only [in_flow_non_replaced, hW] at hok
  split at hok
  · simp at hok
  · generalize ({ inline_size := _, block_size := _, mode := _ } :
      ContainingBlock) = cb2 at hok
    generalize hsc : flow_relative.Sides.start_corner _ = sc at hok
    cases hres : f cb2 sc with
    | error e => simp [hres] at hok
    | ok r =>
      obtain ⟨children, nested, cbs⟩ := r
      simp only [hres, Except.ok.injEq, Prod.mk.injEq,
        Fragment.box.injEq] at hok
      obtain ⟨hfrag, hout⟩ := hok
      subst hfrag
      refine ⟨by simp [BoxFragment.padding], by simp [BoxFragment.border],
        ?_, ?_, ?_, ?_⟩
      · intro hs he
        simp only [BoxFragment.margin, hs, he]
        constructor
        · simp [flow_relative.Sides.auto_is_zero, flow_relative.Sides.map,
            LengthOrAuto.auto_is]
        · simp [flow_relative.Sides.auto_is_zero, flow_relative.Sides.map,
            LengthOrAuto.auto_is]
      · intro hs he
        cases hme : (style.margin.percentages_relative_to_auto
            cb.inline_size).inline_end with
        | auto => exact absurd hme he
        | length l =>
          simp only [BoxFragment.margin, hs, hme]
          simp [flow_relative.Sides.auto_is_zero, flow_relative.Sides.map,
            LengthOrAuto.auto_is]
      · intro hs
        cases hms : (style.margin.percentages_relative_to_auto
            cb.inline_size).inline_start with
        | auto => exact absurd hms hs
        | length l =>
          simp only [BoxFragment.margin, hms]
          simp [flow_relative.Sides.auto_is_zero, flow_relative.Sides.map,
            LengthOrAuto.auto_is]
      · intro hrel
        simp only [BoxFragment.content_rect, BoxFragment.margin,
          BoxFragment.padding, BoxFragment.border, relative_adjustement,
          hrel, Bool.false_eq_true, if_false, reduceIte]
        rw [← hsc]
        simp only [flow_relative.Vec2.vec2_add_def, flow_relative.Vec2.zero,
          flow_relative.Sides.start_corner, flow_relative.Sides.sides_add_def,
          Length.add_def, Length.zero_def, Length.mk.injEq]
        ring

/-- The base style with a definite width of 10px (margins all auto). -/
def centeredStyle : ComputedValues :=
  { baseStyle with box_ := { baseStyle.box_ with width := .length ⟨10⟩ } }

def zeroSides : flow_relative.Sides Length :=
  { inline_start := ⟨0⟩, inline_end := ⟨0⟩, block_start := ⟨0⟩,
    block_end := ⟨0⟩ }

/-- The fragment produced for `centeredStyle` in `sampleCB`: both auto
margins resolve to 45 = (100 - 10)/2. -/
def centeredFragment : BoxFragment :=
  .mk centeredStyle []
    { start_corner := { inline := ⟨45⟩, block := ⟨0⟩ },
      size := { inline := ⟨10⟩, block := ⟨0⟩ } }
    zeroSides zeroSides
    { inline_start := ⟨45⟩, inline_end := ⟨45⟩, block_start := ⟨0⟩,
      block_end := ⟨0⟩ }

/-- Witness for C3: the centering case at a concrete input — width 10 in a
containing block of inline size 100, both inline margins auto, resolve to
45 each. -/
theorem in_flow_inline_margin_resolution_witness :
    centeredFragment.margin.inline_start =
      (sampleCB.inline_size - ⟨10⟩ -
        (centeredStyle.padding.percentages_relative_to
            sampleCB.inline_size +
          centeredStyle.border_width.percentages_relative_to
            sampleCB.inline_size).inline_sum) / (2 : ℚ) ∧
    centeredFragment.margin.inline_end =
      (sampleCB.inline_size - ⟨10⟩ -
        (centeredStyle.padding.percentages_relative_to
            sampleCB.inline_size +
          centeredStyle.border_width.percentages_relative_to
            sampleCB.inline_size).inline_sum) / (2 : ℚ) :=
  (in_flow_inline_margin_resolution sampleCB centeredStyle ⟨10⟩
    emptyContents centeredFragment []
    (by norm_num [centeredStyle, baseStyle, sampleCB])
    (by norm_num [in_flow_non_replaced, centeredStyle, baseStyle, sampleCB,
      emptyContents, centeredFragment, zeroSides, Length.zero])).2.2.1
    (by norm_num [centeredStyle, baseStyle, sampleCB])
    (by norm_num [centeredStyle, baseStyle, sampleCB])

def relposBox : BoxStyle :=
  { display := .other .block .flow, position := .relative,
    float := .floatNone, width := .length ⟨10⟩, height := .auto }

def relposOffsets : flow_relative.Sides LengthOrAuto :=
  { inline_start := .length ⟨7⟩, inline_end := .auto,
    block_start := .auto, block_end := .auto }

/-- A relatively positioned block (width 10, `left: 7px`, zero margins). -/
def relposStyle : ComputedValues :=
  { baseStyle with
      box_ := relposBox
      margin_left := .length Length.zero
      margin_right := .length Length.zero
      box_offsets := relposOffsets }

/-- The fragment produced for `relposStyle` in `sampleCB`: the content
rect is shifted by the 7px relative-position adjustment, and the
over-constrained inline-end margin is overwritten with the slack 90. -/
def relposFragment : BoxFragment :=
  .mk relposStyle []
    { start_corner := { inline := ⟨7⟩, block := ⟨0⟩ },
      size := { inline := ⟨10⟩, block := ⟨0⟩ } }
    zeroSides zeroSides
    { inline_start := ⟨0⟩, inline_end := ⟨90⟩, block_start := ⟨0⟩,
      block_end := ⟨0⟩ }

/-- Counterexample to C3 as stated: for a relatively positioned in-flow
block with definite used inline size (width 10, `left: 7px`), the
resulting fragment's content-rect inline start offset is 7, not
inline-start margin + padding + border = 0 — the content rect is
additionally shifted by the relative-position adjustment. -/
theorem in_flow_content_rect_offset_counterexample :
    in_flow_non_replaced sampleCB relposStyle emptyContents =
      .ok (.box relposFragment, []) ∧
    relposStyle.box_size.inline.percentage_relative_to
      sampleCB.inline_size = .length ⟨10⟩ ∧
    relposFragment.content_rect.start_corner.inline ≠
      relposFragment.margin.inline_start +
        relposFragment.padding.inline_start +
        relposFragment.border.inline_start := by
  refine ⟨?_, by norm_num [relposStyle, relposBox, baseStyle, sampleCB],
    ?_⟩
  · norm_num [in_flow_non_replaced, relposStyle, relposBox, relposOffsets,
      baseStyle, sampleCB, emptyContents, relposFragment, zeroSides,
      Length.zero]
  · norm_num [relposFragment, zeroSides]

/-! ## C4: block-axis stacking -/

/-- Sum of a list of lengths. -/
def Length.sum (l : List Length) : Length := ⟨(l.map Length.px).sum⟩

@[simp]
theorem Length.sum_nil : Length.sum [] = ⟨0⟩ := rfl

@[simp]
theorem Length.sum_cons (a : Length) (l : List Length) :
    Length.sum (a :: l) = a + Length.sum l := by
  simp [Length.sum]

/-- A fragment's total block extent: content block size plus block-axis
padding, border and margin (the `fragment_total_block_size` of
`adjust_block_axis`). -/
def Fragment.total_block_size : Fragment → Length
  | .box f =>
    f.padding.block_sum + f.border.block_sum + f.margin.block_sum +
      f.content_rect.size.block
  | .anonymous a => a.rect.size.block

/-- Shift a fragment's stored rect by `d` on the block axis. -/
def Fragment.shift_block : Fragment → Length → Fragment
  | .box f, d =>
    .box (.mk f.style f.children
      { f.content_rect with
        start_corner :=
          { f.content_rect.start_corner with
            block := f.content_rect.start_corner.block + d } }
      f.padding f.border f.margin)
  | .anonymous a, d =>
    .anonymous (.mk
      { a.rect with
        start_corner :=
          { a.rect.start_corner with
            block := a.rect.start_corner.block + d } }
      a.children a.mode)

/-- A fragment's block-axis start offset in the sense of the claim: the
start of its margin box (its content-rect corner minus its own block-start
margin, padding and border). -/
def Fragment.margin_box_block_start : Fragment → Length
  | .box b =>
    b.content_rect.start_corner.block -
      (b.margin.block_start + b.padding.block_start + b.border.block_start)
  | .anonymous a => a.rect.start_corner.block

theorem Fragment.total_block_size_shift (f : Fragment) (d : Length) :
    (f.shift_block d).total_block_size = f.total_block_size := by
  cases f with
  | box b => cases b; rfl
  | anonymous a => cases a; rfl

theorem Fragment.margin_box_block_start_shift (f : Fragment)
    (d : Length) :
    (f.shift_block d).margin_box_block_start =
      f.margin_box_block_start + d := by
  cases f with
  | box b =>
    cases b
    simp only [Fragment.shift_block, Fragment.margin_box_block_start,
      BoxFragment.content_rect, BoxFragment.margin, BoxFragment.padding,
      BoxFragment.border, Length.add_def, Length.sub_def, Length.mk.injEq]
    ring
  | anonymous a => cases a; rfl

/-- `adjust_block_axis` in closed form: shift by the accumulator, advance
the accumulator by the fragment's total block size and return that
size. -/
theorem adjust_block_axis_eq (f : Fragment) (acc : Length) :
    adjust_block_axis f acc =
      (f.shift_block acc, acc + f.total_block_size,
        f.total_block_size) := by
  cases f with
  | box b =>
    cases b
    simp only [adjust_block_axis, Fragment.shift_block,
      Fragment.total_block_size, BoxFragment.padding, BoxFragment.border,
      BoxFragment.margin, BoxFragment.content_rect, BoxFragment.style,
      BoxFragment.children, Prod.mk.injEq, Fragment.box.injEq,
      BoxFragment.mk.injEq, Length.add_def, Length.mk.injEq,
      flow_relative.Sides.block_sum]
  | anonymous a =>
    cases a
    simp only [adjust_block_axis, Fragment.shift_block,
      Fragment.total_block_size, AnonymousFragment.rect,
      AnonymousFragment.children, AnonymousFragment.mode, Prod.mk.injEq,
      Fragment.anonymous.injEq, AnonymousFragment.mk.injEq,
      Length.add_def, Length.zero_def, Length.mk.injEq]
    norm_num

/-- The stacking post-pass in closed form: the final accumulator is the
initial one plus the sum of all total block extents, and the `i`-th
fragment is the `i`-th input shifted by the initial accumulator plus the
extents of the fragments before it. -/
theorem adjust_block_axis_all_get (fs : List Fragment) (acc : Length) :
    (adjust_block_axis_all fs acc).2 =
      acc + Length.sum (fs.map Fragment.total_block_size) ∧
    ∀ i, (adjust_block_axis_all fs acc).1.get? i =
      (fs.get? i).map fun f =>
        f.shift_block
          (acc +
            Length.sum ((fs.take i).map Fragment.total_block_size)) := by
  induction fs generalizing acc with
  | nil =>
    constructor
    · simp [adjust_block_axis_all, Length.mk.injEq]
    · intro i
      simp [adjust_block_axis_all]
  | cons f rest ih =>
    constructor
    · simp only [adjust_block_axis_all, adjust_block_axis_eq,
        List.map_cons, Length.sum_cons]
      rw [(ih (acc + f.total_block_size)).1]
      simp only [Length.add_def, Length.mk.injEq]
      ring
    · intro i
      cases i with
      | zero =>
        simp only [adjust_block_axis_all, adjust_block_axis_eq,
          List.get?_cons_zero, Option.map_some, List.take_zero,
          List.map_nil, Length.sum_nil]
        congr 2
        simp [Length.mk.injEq]
      | succ n =>
        simp only [adjust_block_axis_all, adjust_block_axis_eq,
          List.get?_cons_succ, List.take_succ_cons, List.map_cons,
          Length.sum_cons]
        rw [(ih (acc + f.total_block_size)).2 n]
        congr 2
        simp only [Length.add_def, Length.mk.injEq]
        ring

/-- The stacking post-pass preserves every fragment's total block
extent. -/
theorem adjust_block_axis_all_totals (fs : List Fragment) (acc : Length) :
    (adjust_block_axis_all fs acc).1.map Fragment.total_block_size =
      fs.map Fragment.total_block_size := by
  induction fs generalizing acc with
  | nil => simp [adjust_block_axis_all]
  | cons f rest ih =>
    simp only [adjust_block_axis_all, adjust_block_axis_eq, List.map_cons,
      Fragment.total_block_size_shift, ih]

theorem mapM_except_ok {f : α → Except ε β} {xs : List α} {ys : List β}
    (h : mapM_except f xs = .ok ys) :
    ys.length = xs.length ∧
    ∀ i x, xs.get? i = some x →
      ∃ y, ys.get? i = some y ∧ f x = .ok y := by
  induction xs generalizing ys with
  | nil =>
    simp only [mapM_except, Except.ok.injEq] at h
    subst h
    exact ⟨rfl, by intro i x hx; simp at hx⟩
  | cons x xs ih =>
    simp only [mapM_except] at h
    cases hfx : f x with
    | error e => rw [hfx] at h; exact absurd h (by simp)
    | ok y =>
      rw [hfx] at h
      cases hrest : mapM_except f xs with
      | error e => rw [hrest] at h; exact absurd h (by simp)
      | ok ys2 =>
        rw [hrest] at h
        simp only [Except.ok.injEq] at h
        subst h
        obtain ⟨hlen, hget⟩ := ih hrest
        refine ⟨by simp [hlen], ?_⟩
        intro i a ha
        cases i with
        | zero =>
          simp only [List.get?_cons_zero, Option.some.injEq] at ha
          subst ha
          exact ⟨y, by simp, hfx⟩
        | succ n =>
          simp only [List.get?_cons_succ] at ha ⊢
          exact hget n a ha

@[simp]
theorem enumerate_from_length (k : ℕ) (xs : List α) :
    (enumerate_from k xs).length = xs.length := by
  induction xs generalizing k with
  | nil => rfl
  | cons x xs ih => simp [enumerate_from, ih]

@[simp]
theorem enumerate_from_get (k : ℕ) (xs : List α) (i : ℕ) :
    (enumerate_from k xs).get? i = (xs.get? i).map fun x => (k + i, x) := by
  induction xs generalizing k i with
  | nil => simp [enumerate_from]
  | cons x xs ih =>
    cases i with
    | zero => simp [enumerate_from]
    | succ n =>
      simp only [enumerate_from, List.get?_cons_succ, ih (k + 1) n]
      cases xs.get? n <;> simp
      ring_nf

/-- An in-flow non-replaced block that is not relatively positioned
produces a fragment whose margin box starts at the containing block's
content origin on the block axis: its content-rect corner is exactly its
own block-start margin + padding + border. -/
theorem in_flow_non_replaced_block_start (cb : ContainingBlock)
    (style : ComputedValues)
    (f : ContainingBlock → flow_relative.Vec2 Length →
      Except LayoutError LayoutResult)
    (frag : Fragment) (out : List AbsolutelyPositionedFragment)
    (hrel : style.box_.position.is_relatively_positioned = false)
    (hok : in_flow_non_replaced cb style f = .ok (frag, out)) :
    frag.margin_box_block_start = ⟨0⟩ := by
  simp only [in_flow_non_replaced] at hok
  split at hok
  · simp at hok
  · generalize ({ inline_size := _, block_size := _, mode := _ } :
      ContainingBlock) = cb2 at hok
    generalize hsc : flow_relative.Sides.start_corner _ = sc at hok
    cases hres : f cb2 sc with
    | error e => simp [hres] at hok
    | ok r =>
      obtain ⟨children, nested, cbs⟩ := r
      simp only [hres, Except.ok.injEq, Prod.mk.injEq] at hok
      obtain ⟨hfrag, hout⟩ := hok
      subst hfrag
      simp only [Fragment.margin_box_block_start, BoxFragment.content_rect,
        BoxFragment.margin, BoxFragment.padding, BoxFragment.border]
      rw [← hsc]
      simp only [relative_adjustement, hrel, Bool.false_eq_true, if_false,
        reduceIte, flow_relative.Vec2.vec2_add_def, flow_relative.Vec2.zero,
        flow_relative.Sides.start_corner, flow_relative.Sides.sides_add_def,
        Length.add_def, Length.sub_def, Length.zero_def, Length.mk.injEq]
      ring

@[simp]
theorem Length.zero_add (a : Length) : Length.zero + a = a := by
  cases a; simp

/-- C4 (amended): for a block container of in-flow same-formatting-context
blocks, none relatively positioned, laid out without a float context: the
content block size is the sum of the children's total block extents
(content + padding + border + margin on the block axis), and each child
fragment's block-axis start offset (the start of its margin box) is the
sum of the total block extents of the preceding siblings.  A relatively
positioned child is additionally shifted by its own relative-position
block adjustment. -/
theorem vertical_stacking (ifcL : IfcLayout) (fuel : ℕ)
    (cb : ContainingBlock) (boxes : List BlockLevelBox)
    (frags : List Fragment) (abspos : List AbsolutelyPositionedFragment)
    (sz : Length)
    (hboxes : ∀ b ∈ boxes, ∃ style contents,
      b = .sameFormattingContextBlock style contents ∧
      style.box_.position.is_relatively_positioned = false)
    (hok : layout_block_level_children ifcL fuel cb boxes none =
      .ok (frags, abspos, sz)) :
    sz = Length.sum (frags.map Fragment.total_block_size) ∧
    ∀ i frag, frags.get? i = some frag →
      frag.margin_box_block_start =
        Length.sum ((frags.take i).map Fragment.total_block_size) := by
  cases fuel with
  | zero => simp [layout_block_level_children, throw, throwThe,
      MonadExceptOf.throw] at hok
  | succ fuel =>
    simp only [layout_block_level_children] at hok
    cases hm : mapM_except
        (fun p => layout_block_level_box ifcL fuel cb p.2 p.1)
        (enumerate_from 0 boxes) with
    | error e => rw [hm] at hok; simp at hok
    | ok results =>
      rw [hm] at hok
      simp only [except_bind_ok, except_pure_eq_ok, Except.ok.injEq,
        Prod.mk.injEq] at hok
      obtain ⟨hfr, hab, hsz⟩ := hok
      obtain ⟨hlen, hget⟩ := mapM_except_ok hm
      have hfrag0 : ∀ i r, results.get? i = some r →
          r.1.margin_box_block_start = ⟨0⟩ := by
        intro i r hr
        cases hbi : boxes.get? i with
        | none =>
          have h1 : boxes.length ≤ i := List.get?_eq_none.mp hbi
          have h2 : results.length ≤ i := by
            rw [hlen, enumerate_from_length]; exact h1
          rw [List.get?_eq_none.mpr h2] at hr
          simp at hr
        | some box =>
          have henum : (enumerate_from 0 boxes).get? i =
              some (0 + i, box) := by
            rw [enumerate_from_get, hbi]; rfl
          obtain ⟨y, hy, hok2⟩ := hget i (0 + i, box) henum
          rw [hy, Option.some.injEq] at hr
          subst hr
          obtain ⟨style, contents, hbox, hrel⟩ :=
            hboxes box (List.get?_mem hbi)
          subst hbox
          cases fuel with
          | zero => simp [layout_block_level_box, throw, throwThe,
              MonadExceptOf.throw] at hok2
          | succ fuel2 =>
            simp only [layout_block_level_box] at hok2
            exact in_flow_non_replaced_block_start _ _ _ y.1 y.2 hrel hok2
      have htot : frags.map Fragment.total_block_size =
          (results.map Prod.fst).map Fragment.total_block_size := by
        rw [← hfr, adjust_block_axis_all_totals]
      constructor
      · rw [← hsz, (adjust_block_axis_all_get _ _).1, ← htot,
          Length.zero_add]
      · intro i frag hfrag
        rw [← hfr] at hfrag
        rw [(adjust_block_axis_all_get _ _).2 i] at hfrag
        cases hg : (results.map Prod.fst).get? i with
        | none => rw [hg] at hfrag; simp at hfrag
        | some g =>
          rw [hg] at hfrag
          simp only [Option.map, Option.some.injEq] at hfrag
          subst hfrag
          rw [Fragment.margin_box_block_start_shift]
          have hg2 : ∃ r, results.get? i = some r ∧ r.1 = g := by
            rw [List.get?_map] at hg
            cases hr : results.get? i with
            | none => rw [hr] at hg; simp at hg
            | some r =>
              rw [hr] at hg
              simp only [Option.map, Option.some.injEq] at hg
              exact ⟨r, rfl, hg⟩
          obtain ⟨r, hr, hrg⟩ := hg2
          rw [← hrg, hfrag0 i r hr]
          have htake : (frags.take i).map Fragment.total_block_size =
              ((results.map Prod.fst).take i).map
                Fragment.total_block_size := by
            simp only [List.map_take]
            rw [htot]
          rw [htake, Length.zero_add]
          cases Length.sum (((results.map Prod.fst).take i).map
            Fragment.total_block_size)
          simp

/-- An inline layout callback producing nothing (used in sample inputs). -/
def nullIfc : IfcLayout := fun _ _ _ => ([], [], Length.zero)

/-- An in-flow block of height `h` with no margin/padding/border. -/
def blockOfHeight (h : ℚ) : BlockLevelBox :=
  .sameFormattingContextBlock
    { baseStyle with box_ := { baseStyle.box_ with height := .length ⟨h⟩ } }
    (.blockLevelBoxes [])

/-- The fragment of `blockOfHeight h` stacked at block offset `o` in
`sampleCB`. -/
def stackedFragment (h o : ℚ) : Fragment :=
  .box (.mk
    { baseStyle with box_ := { baseStyle.box_ with height := .length ⟨h⟩ } }
    []
    { start_corner := { inline := ⟨0⟩, block := ⟨o⟩ },
      size := { inline := ⟨100⟩, block := ⟨h⟩ } }
    zeroSides zeroSides zeroSides)

/-- Witness for C4: two sibling blocks of content block sizes 3 and 5 with
no margin/padding/border stack at block offsets 0 and 3, and the content
block size is their sum 8. -/
theorem vertical_stacking_witness :
    ((⟨8⟩ : Length) =
      Length.sum ([stackedFragment 3 0, stackedFragment 5 3].map
        Fragment.total_block_size)) ∧
    (stackedFragment 5 3).margin_box_block_start =
      Length.sum (([stackedFragment 3 0, stackedFragment 5 3].take 1).map
        Fragment.total_block_size) := by
  have happ := vertical_stacking nullIfc 4 sampleCB
    [blockOfHeight 3, blockOfHeight 5]
    [stackedFragment 3 0, stackedFragment 5 3] [] ⟨8⟩
    (by
      intro b hb
      simp only [List.mem_cons, List.not_mem_nil, or_false] at hb
      rcases hb with rfl | rfl
      · exact ⟨_, _, rfl, rfl⟩
      · exact ⟨_, _, rfl, rfl⟩)
    (by
      norm_num [layout_block_level_children, layout_block_level_box,
        BlockContainer.layout, in_flow_non_replaced, mapM_except,
        enumerate_from, adjust_block_axis_all, adjust_block_axis,
        patch_abspos_fragment, blockOfHeight, stackedFragment, baseStyle,
        sampleCB, nullIfc, zeroSides, Length.zero])
  exact ⟨happ.1, happ.2 1 (stackedFragment 5 3) rfl⟩

/-- A relatively positioned block with `top: 5px` and no margins. -/
def relposTopBox : BlockLevelBox :=
  .sameFormattingContextBlock
    { baseStyle with
        box_ := { baseStyle.box_ with position := .relative }
        box_offsets := { inline_start := .auto, inline_end := .auto,
                         block_start := .length ⟨5⟩, block_end := .auto } }
    (.blockLevelBoxes [])

/-- The fragment `relposTopBox` produces in `sampleCB`: shifted down by
its relative-position adjustment of 5. -/
def relposTopFragment : Fragment :=
  .box (.mk
    { baseStyle with
        box_ := { baseStyle.box_ with position := .relative }
        box_offsets := { inline_start := .auto, inline_end := .auto,
                         block_start := .length ⟨5⟩, block_end := .auto } }
    []
    { start_corner := { inline := ⟨0⟩, block := ⟨5⟩ },
      size := { inline := ⟨100⟩, block := ⟨0⟩ } }
    zeroSides zeroSides zeroSides)

/-- Counterexample to C4 as stated: a relatively positioned in-flow block
child (`top: 5px`, no margins/padding/border) has block-axis start offset
5, not the sum (zero) of the total block extents of its (absent) preceding
siblings. -/
theorem vertical_stacking_counterexample :
    layout_block_level_children nullIfc 4 sampleCB [relposTopBox] none =
      .ok ([relposTopFragment], [], ⟨0⟩) ∧
    (relposTopFragment.margin_box_block_start ≠
      Length.sum (([relposTopFragment].take 0).map
        Fragment.total_block_size)) := by
  constructor
  · norm_num [layout_block_level_children, layout_block_level_box,
      BlockContainer.layout, in_flow_non_replaced, mapM_except,
      enumerate_from, adjust_block_axis_all, adjust_block_axis,
      patch_abspos_fragment, relposTopBox, relposTopFragment, baseStyle,
      sampleCB, nullIfc, zeroSides, Length.zero]
  · norm_num [relposTopFragment, Fragment.margin_box_block_start,
      zeroSides, Length.mk.injEq]

/-! ## C1: the parallel path refines sequential evaluation -/

/-- Modelled from the spec: the claim's reference semantics — a strictly
sequential left-to-right evaluation of the same per-child layout algorithm
as the parallel path (no float context), stacking each fragment on the
block axis as it is produced and appending each child's pending
absolutely-positioned fragments in sibling order. -/
def seq_spec_loop (ifcL : IfcLayout) (fuel : ℕ) (cb : ContainingBlock) :
    List BlockLevelBox → ℕ → Length → List Fragment →
    List AbsolutelyPositionedFragment → Except LayoutError LayoutResult
  | [], _, content_block_size, fragments, abspos =>
    .ok (fragments, abspos, content_block_size)
  | box_ :: rest, tree_rank, content_block_size, fragments, abspos =>
    match layout_block_level_box ifcL fuel cb box_ tree_rank with
    | .error e => .error e
    | .ok (fragment, new_abspos) =>
      let step := adjust_block_axis fragment content_block_size
      seq_spec_loop ifcL fuel cb rest (tree_rank + 1) step.2.1
        (fragments ++ [step.1]) (abspos ++ new_abspos)

def layout_block_level_children_sequential (ifcL : IfcLayout) :
    ℕ → ContainingBlock → List BlockLevelBox →
    Except LayoutError LayoutResult
  | 0, _, _ => throw .outOfFuel
  | fuel + 1, cb, boxes => seq_spec_loop ifcL fuel cb boxes 0 Length.zero [] []

theorem par_seq_loop_eq (ifcL : IfcLayout) (fuel : ℕ)
    (cb : ContainingBlock) (boxes : List BlockLevelBox) (k : ℕ)
    (cbs : Length) (facc : List Fragment)
    (aacc : List AbsolutelyPositionedFragment) :
    (match mapM_except
        (fun p => layout_block_level_box ifcL fuel cb p.2 p.1)
        (enumerate_from k boxes) with
     | .error e => .error e
     | .ok results =>
       .ok (facc ++ (adjust_block_axis_all (results.map Prod.fst) cbs).1,
            aacc ++ (results.map Prod.snd).flatten,
            (adjust_block_axis_all (results.map Prod.fst) cbs).2)) =
      seq_spec_loop ifcL fuel cb boxes k cbs facc aacc := by
  induction boxes generalizing k cbs facc aacc with
  | nil =>
    simp [mapM_except, enumerate_from, adjust_block_axis_all,
      seq_spec_loop]
  | cons b rest ih =>
    simp only [enumerate_from, mapM_except, seq_spec_loop]
    cases hb : layout_block_level_box ifcL fuel cb b k with
    | error e => rfl
    | ok y =>
      obtain ⟨frag, na⟩ := y
      dsimp only
      simp only [adjust_block_axis_eq]
      rw [← ih (k + 1) (cbs + frag.total_block_size)
        (facc ++ [frag.shift_block cbs]) (aacc ++ na)]
      cases hrest : mapM_except
          (fun p => layout_block_level_box ifcL fuel cb p.2 p.1)
          (enumerate_from (k + 1) rest) with
      | error e => rfl
      | ok results =>
        simp only [List.map_cons, adjust_block_axis_all,
          adjust_block_axis_eq, List.flatten_cons, List.append_assoc,
          List.cons_append, List.nil_append, List.singleton_append]



theorem adjust_block_axis_all_length (fs : List Fragment) (acc : Length) :
    (adjust_block_axis_all fs acc).1.length = fs.length := by
  induction fs generalizing acc with
  | nil => rfl
  | cons f rest ih => simp [adjust_block_axis_all, ih]

theorem parallel_path_matches_sequential (ifcL : IfcLayout) (fuel : ℕ)
    (cb : ContainingBlock) (boxes : List BlockLevelBox)
    (hnf : ∀ b ∈ boxes, ∀ fb, b ≠ .outOfFlowFloatBox fb) :
    layout_block_level_children ifcL fuel cb boxes none =
      layout_block_level_children_sequential ifcL fuel cb boxes ∧
    ∀ frags abspos sz,
      layout_block_level_children ifcL fuel cb boxes none =
        .ok (frags, abspos, sz) →
      frags.length = boxes.length ∧
      ∀ i box, boxes.get? i = some box →
        ∃ frag box_abspos,
          layout_block_level_box ifcL (fuel - 1) cb box i =
            .ok (frag, box_abspos) ∧
          frags.get? i = some (frag.shift_block
            (Length.sum ((frags.take i).map
              Fragment.total_block_size))) := by
  constructor
  · cases fuel with
    | zero => rfl
    | succ fuel =>
      have hloop := par_seq_loop_eq ifcL fuel cb boxes 0 Length.zero [] []
      simp only [List.nil_append] at hloop
      simp only [layout_block_level_children,
        layout_block_level_children_sequential]
      rw [← hloop]
      cases mapM_except
          (fun p => layout_block_level_box ifcL fuel cb p.2 p.1)
          (enumerate_from 0 boxes) with
      | error e => rfl
      | ok results => rfl
  · intro frags abspos sz hok
    cases fuel with
    | zero => simp [layout_block_level_children, throw, throwThe,
        MonadExceptOf.throw] at hok
    | succ fuel =>
      simp only [layout_block_level_children] at hok
      cases hm : mapM_except
          (fun p => layout_block_level_box ifcL fuel cb p.2 p.1)
          (enumerate_from 0 boxes) with
      | error e => rw [hm] at hok; simp at hok
      | ok results =>
        rw [hm] at hok
        simp only [except_bind_ok, except_pure_eq_ok, Except.ok.injEq,
          Prod.mk.injEq] at hok
        obtain ⟨hfr, hab, hsz⟩ := hok
        obtain ⟨hlen, hget⟩ := mapM_except_ok hm
        have htot : frags.map Fragment.total_block_size =
            (results.map Prod.fst).map Fragment.total_block_size := by
          rw [← hfr, adjust_block_axis_all_totals]
        constructor
        · rw [← hfr, adjust_block_axis_all_length, List.length_map, hlen,
            enumerate_from_length]
        · intro i box hbi
          have henum : (enumerate_from 0 boxes).get? i =
              some (0 + i, box) := by
            rw [enumerate_from_get, hbi]; rfl
          obtain ⟨y, hy, hok2⟩ := hget i (0 + i, box) henum
          refine ⟨y.1, y.2, ?_, ?_⟩
          · simpa using hok2
          · have htake : (frags.take i).map Fragment.total_block_size =
                ((results.map Prod.fst).take i).map
                  Fragment.total_block_size := by
              simp only [List.map_take]
              rw [htot]
            rw [← hfr, (adjust_block_axis_all_get _ _).2 i,
              List.get?_map, hy]
            simp only [Option.map, Option.some.injEq]
            congr 1
            rw [Length.zero_add, hfr, ← htake]


/-- Witness for C1: a two-child sibling list without float boxes, laid out
through the parallel path, gives exactly the sequential left-to-right
result. -/
theorem parallel_path_matches_sequential_witness :
    layout_block_level_children nullIfc 4 sampleCB
      [blockOfHeight 3, blockOfHeight 5] none =
      layout_block_level_children_sequential nullIfc 4 sampleCB
        [blockOfHeight 3, blockOfHeight 5] :=
  (parallel_path_matches_sequential nullIfc 4 sampleCB
    [blockOfHeight 3, blockOfHeight 5]
    (by
      intro b hb fb
      simp only [List.mem_cons, List.not_mem_nil, or_false] at hb
      rcases hb with rfl | rfl <;> simp [blockOfHeight])).1

/-! ## C6: absolutely positioned children — slot preservation and patching -/

/-- The rect a fragment exposes for static-position patching (the
`child_fragment_rect` of the patch loop): a box fragment's content rect,
an anonymous fragment's rect. -/
def Fragment.self_rect : Fragment → flow_relative.Rect Length
  | .box b => b.content_rect
  | .anonymous a => a.rect

/-- Add a distance to an offset that is still an unresolved static start;
resolved offsets are left unchanged. -/
def AbsoluteBoxOffsets.add_static :
    AbsoluteBoxOffsets → Length → AbsoluteBoxOffsets
  | .staticStart s, d => .staticStart (s + d)
  | o, _ => o

/-- C6: an `OutOfFlowAbsolutelyPositionedBox` child contributes an
anonymous no-op fragment in its own slot on both layout paths, plus a
pending fragment tagged with its tree rank; after the siblings are laid
out, `BlockContainer::layout` re-tags every pending fragment with the
container's own tree rank and adds the start corner of the child fragment
found at the pending fragment's tree rank to each offset that is still an
unresolved `StaticStart`, leaving resolved offsets unchanged. -/
theorem abspos_deferral (ifcL : IfcLayout) (cb : ContainingBlock)
    (boxes : List BlockLevelBox) (b : AbsolutelyPositionedBox) (i : ℕ)
    (tr : ℕ) :
    (∀ fuel, layout_block_level_box ifcL (fuel + 1) cb
        (.outOfFlowAbsolutelyPositionedBox b) i =
      .ok (.anonymous (.no_op cb.mode),
           [b.layout flow_relative.Vec2.zero i])) ∧
    (∀ fuel fc, layout_block_level_box_sequential ifcL (fuel + 1) cb
        (.outOfFlowAbsolutelyPositionedBox b) i fc =
      .ok (.anonymous (.no_op cb.mode),
           [b.layout flow_relative.Vec2.zero i])) ∧
    (b.layout flow_relative.Vec2.zero i).tree_rank = i ∧
    (∀ fuel frags abspos sz,
      boxes.get? i = some (.outOfFlowAbsolutelyPositionedBox b) →
      layout_block_level_children ifcL fuel cb boxes none =
        .ok (frags, abspos, sz) →
      ∃ d, frags.get? i =
        some ((Fragment.anonymous (AnonymousFragment.no_op
          cb.mode)).shift_block d)) ∧
    (∀ fuel fc frags abspos_in patched sz szc,
      BlockContainer.layout ifcL (fuel + 1) (.blockLevelBoxes boxes) cb tr
          fc = .ok (frags, patched, sz) →
      layout_block_level_children ifcL fuel cb boxes fc =
        .ok (frags, abspos_in, szc) →
      ∀ j f, abspos_in.get? j = some f →
        ∃ frag, frags.get? f.tree_rank = some frag ∧
          patched.get? j = some
            { tree_rank := tr,
              inline_start := f.inline_start.add_static
                frag.self_rect.start_corner.inline,
              block_start := f.block_start.add_static
                frag.self_rect.start_corner.block }) := by
  refine ⟨fun fuel => rfl, fun fuel fc => rfl, rfl, ?_, ?_⟩
  · intro fuel frags abspos sz hbi hok
    cases fuel with
    | zero => simp [layout_block_level_children, throw, throwThe,
        MonadExceptOf.throw] at hok
    | succ fuel =>
      simp only [layout_block_level_children] at hok
      cases hm : mapM_except
          (fun p => layout_block_level_box ifcL fuel cb p.2 p.1)
          (enumerate_from 0 boxes) with
      | error e => rw [hm] at hok; simp at hok
      | ok results =>
        rw [hm] at hok
        simp only [except_bind_ok, except_pure_eq_ok, Except.ok.injEq,
          Prod.mk.injEq] at hok
        obtain ⟨hfr, hab, hsz⟩ := hok
        obtain ⟨hlen, hget⟩ := mapM_except_ok hm
        have henum : (enumerate_from 0 boxes).get? i =
            some (0 + i, .outOfFlowAbsolutelyPositionedBox b) := by
          rw [enumerate_from_get, hbi]; rfl
        obtain ⟨y, hy, hok2⟩ := hget i _ henum
        cases fuel with
        | zero => simp [layout_block_level_box, throw, throwThe,
            MonadExceptOf.throw] at hok2
        | succ fuel2 =>
          simp only [layout_block_level_box, except_pure_eq_ok,
            Except.ok.injEq] at hok2
          refine ⟨Length.zero + Length.sum (((results.map Prod.fst).take
            i).map Fragment.total_block_size), ?_⟩
          rw [← hfr, (adjust_block_axis_all_get _ _).2 i, List.get?_map,
            hy]
          simp only [Option.map, Option.some.injEq]
          rw [← hok2]
  · intro fuel fc frags abspos_in patched sz szc hcont hch
    simp only [BlockContainer.layout, hch, except_bind_ok] at hcont
    cases hmp : mapM_except (patch_abspos_fragment frags tr)
        abspos_in with
    | error e => rw [hmp] at hcont; simp at hcont
    | ok patched2 =>
      rw [hmp] at hcont
      simp only [except_bind_ok, except_pure_eq_ok, Except.ok.injEq,
        Prod.mk.injEq] at hcont
      obtain ⟨-, hpat, hsz2⟩ := hcont
      subst hpat
      intro j f hj
      obtain ⟨hplen, hpget⟩ := mapM_except_ok hmp
      obtain ⟨y, hyj, hpatch⟩ := hpget j f hj
      obtain ⟨ftr, fis, fbs⟩ := f
      simp only [patch_abspos_fragment] at hpatch
      cases hfi : frags.get? ftr with
      | none =>
        rw [hfi] at hpatch
        simp [throw, throwThe, MonadExceptOf.throw] at hpatch
      | some frag =>
        rw [hfi] at hpatch
        simp only [except_pure_eq_ok, Except.ok.injEq] at hpatch
        refine ⟨frag, rfl, ?_⟩
        rw [hyj, ← hpatch]
        cases fis <;> cases fbs <;> cases frag <;> rfl


def absposSampleBox : AbsolutelyPositionedBox :=
  .mk { baseStyle with box_ := { baseStyle.box_ with position := .absolute } }
    (.flow (.mk (.blockLevelBoxes []) .no))

def absposChild : BlockLevelBox :=
  .outOfFlowAbsolutelyPositionedBox absposSampleBox

def absposSlotFragment : Fragment :=
  .anonymous (.mk
    { start_corner := { inline := ⟨0⟩, block := ⟨0⟩ },
      size := { inline := ⟨0⟩, block := ⟨0⟩ } }
    [] sampleCB.mode)

def absposPending : AbsolutelyPositionedFragment :=
  { tree_rank := 0, inline_start := .staticStart ⟨0⟩,
    block_start := .staticStart ⟨0⟩ }

def absposPatched : AbsolutelyPositionedFragment :=
  { tree_rank := 7, inline_start := .staticStart ⟨0⟩,
    block_start := .staticStart ⟨0⟩ }

/-- Witness for C6: a single absolutely positioned child occupies slot 0
with an anonymous no-op fragment, and its pending fragment (tree rank 0,
static-start offsets) is re-tagged with the container's tree rank 7 with
its static starts patched by the slot fragment's start corner. -/
theorem abspos_deferral_witness :
    (∃ d, [absposSlotFragment].get? 0 =
      some ((Fragment.anonymous (AnonymousFragment.no_op
        sampleCB.mode)).shift_block d)) ∧
    (∃ frag, [absposSlotFragment].get? absposPending.tree_rank =
        some frag ∧
      [absposPatched].get? 0 = some
        { tree_rank := 7,
          inline_start := absposPending.inline_start.add_static
            frag.self_rect.start_corner.inline,
          block_start := absposPending.block_start.add_static
            frag.self_rect.start_corner.block }) := by
  have h := abspos_deferral nullIfc sampleCB [absposChild]
    absposSampleBox 0 7
  constructor
  · exact h.2.2.2.1 4 [absposSlotFragment] [absposPending] ⟨0⟩ rfl
      (by norm_num [layout_block_level_children, layout_block_level_box,
        BlockContainer.layout, in_flow_non_replaced, mapM_except,
        enumerate_from, adjust_block_axis_all, adjust_block_axis,
        patch_abspos_fragment, absposChild, absposSampleBox,
        absposSlotFragment, absposPending, baseStyle, sampleCB, nullIfc,
        zeroSides, Length.zero])
  · exact h.2.2.2.2 4 none [absposSlotFragment] [absposPending]
      [absposPatched] ⟨0⟩ ⟨0⟩
      (by norm_num [layout_block_level_children, layout_block_level_box,
        BlockContainer.layout, in_flow_non_replaced, mapM_except,
        enumerate_from, adjust_block_axis_all, adjust_block_axis,
        patch_abspos_fragment, absposChild, absposSampleBox,
        absposSlotFragment, absposPending, absposPatched, baseStyle,
        sampleCB, nullIfc, zeroSides, Length.zero])
      (by norm_num [layout_block_level_children, layout_block_level_box,
        BlockContainer.layout, in_flow_non_replaced, mapM_except,
        enumerate_from, adjust_block_axis_all, adjust_block_axis,
        patch_abspos_fragment, absposChild, absposSampleBox,
        absposSlotFragment, absposPending, baseStyle, sampleCB, nullIfc,
        zeroSides, Length.zero])
      0 absposPending rfl


/-! ## Box-tree construction (src/victor/src/layout/boxes/construct.rs)

The document tree and its traversal cursor are modelled from the spec
(section 6): the builder does a preorder walk; an element with
`display: contents` has its children spliced in as siblings; an
inline-level element is descended into (with the ascend popping its open
inline box); a block-level or out-of-flow element is not descended into —
its children are stored for deferred (or, for inline-level out-of-flow
boxes, immediate) nested construction.  The style provider is external
(spec section 6), so each element node carries its computed style. -/

/-- Modelled from the spec: a document-tree node.  `skipped` stands for
the node kinds the builder ignores (doctype, comment, processing
instruction). -/
inductive DomTree where
  | text (contents : String)
  | element (style : ComputedValues) (children : List DomTree)
  | skipped

/-- `IntermediateBlockContainer`: an eagerly built inline formatting
context or the deferred children of an element. -/
inductive IntermediateBlockContainer where
  | inlineFormattingContext (ifc : InlineFormattingContext)
  | deferred (from_children_of : List DomTree)

/-- `IntermediateBlockLevelBox` (out-of-flow variants store the element's
children and its `display_inside` for the deferred nested build). -/
inductive IntermediateBlockLevelBox where
  | sameFormattingContextBlock (style : ComputedValues)
      (contents : IntermediateBlockContainer)
  | outOfFlowAbsolutelyPositionedBox (style : ComputedValues)
      (element : List DomTree) (display_inside : DisplayInside)
  | outOfFlowFloatBox (style : ComputedValues)
      (element : List DomTree) (display_inside : DisplayInside)

/-- Builder failures: fuel exhaustion (embedding harness), the
`assert!` in `end_ongoing_inline_formatting_context`, the
`expect("found a text node without a parent")`, and the
`expect("no ongoing inline level box found")`. -/
inductive BuildError where
  | outOfFuel
  | ongoingInlineBoxes
  | textWithoutParent
  | noOngoingInlineBox
deriving DecidableEq

/-- The builder state (`BlockContainerBuilder`); the inline-box stack has
its top at the end of the list, mirroring `Vec` push/pop. -/
structure BlockContainerBuilder where
  block_level_boxes : List IntermediateBlockLevelBox
  ongoing_inline_formatting_context : InlineFormattingContext
  ongoing_inline_boxes_stack : List InlineBox
  anonymous_style : Option ComputedValues
  contains_floats : ContainsFloats
  parent_style : Option ComputedValues

/-- Modelled from the spec: the single lazily created anonymous style for
anonymous block boxes, inheriting (only) inherited text properties from
the parent; all box properties are initial (in-flow block, static, no
float, auto sizes).  None of the claims depend on its field values. -/
def ComputedValues.anonymous_inheriting_from
    (_parent_style : Option ComputedValues) : ComputedValues :=
  baseStyle

def BlockContainerBuilder.current_inline_level_boxes
    (b : BlockContainerBuilder) : List InlineLevelBox :=
  match b.ongoing_inline_boxes_stack.getLast? with
  | some last => last.children
  | none => b.ongoing_inline_formatting_context.inline_level_boxes

def BlockContainerBuilder.current_parent_style
    (b : BlockContainerBuilder) : Option ComputedValues :=
  match b.ongoing_inline_boxes_stack.getLast? with
  | some last => some last.style
  | none => b.parent_style

/-- Write back the current inline-level box list (the innermost open
inline box's children, or the ongoing inline formatting context). -/
def BlockContainerBuilder.set_current_inline_level_boxes
    (b : BlockContainerBuilder) (l : List InlineLevelBox) :
    BlockContainerBuilder :=
  match b.ongoing_inline_boxes_stack.getLast? with
  | some last =>
    { b with
      ongoing_inline_boxes_stack :=
        b.ongoing_inline_boxes_stack.dropLast ++
          [InlineBox.mk last.style last.first_fragment last.last_fragment
            l] }
  | none => { b with ongoing_inline_formatting_context := .mk l }

def BlockContainerBuilder.has_ongoing_inline_formatting_context
    (b : BlockContainerBuilder) : Bool :=
  ¬ b.ongoing_inline_formatting_context.inline_level_boxes.isEmpty ||
    ¬ b.ongoing_inline_boxes_stack.isEmpty

/-- `u8::is_ascii_whitespace`: space, tab, line feed, form feed, carriage
return.  The builder scans bytes, but an ASCII byte never occurs inside a
multi-byte UTF-8 character, so the character-level scan is equivalent. -/
def is_ascii_whitespace (c : Char) : Bool :=
  c = ' ' || c = '\t' || c = '\n' || c = '\x0c' || c = '\r'

/-- `bytes().position(p)`: index of the first character satisfying `p`. -/
def position (p : Char → Bool) : List Char → Option ℕ
  | [] => none
  | c :: cs => if p c then some 0 else (position p cs).map (· + 1)

/-- The whitespace-collapsing loop of `handle_text`: repeatedly copy the
run up to the next whitespace character, emit a single space, and skip the
whitespace run.  The fuel is an iteration bound; every iteration consumes
at least one character, so `input.length` iterations always suffice. -/
def collapse_loop (output : List Char) : ℕ → List Char → List Char
  | 0, _ => output
  | fuel + 1, input =>
    match position is_ascii_whitespace input with
    | some i =>
      let non_whitespace := input.take i
      let rest := input.drop i
      let output := output ++ non_whitespace ++ [' ']
      match position (fun b => ¬ is_ascii_whitespace b) rest with
      | some j => collapse_loop output fuel (rest.drop j)
      | none => output
    | none => output ++ input

/-- The inner loop of `handle_leading_whitespace`: walk the already-built
inline-level boxes backwards (descending into inline boxes, skipping
out-of-flow boxes) looking for a text run; leading whitespace is preserved
iff the nearest text run does not already end in a space.  Reaching the
front of the container is "paragraph start" (not preserved).  The fuel is
an iteration bound; every step either consumes a box or pops the iterator
stack, so `sizeOf` of the initial list always suffices. -/
def whitespace_preserved (fuel : ℕ) (boxes : List InlineLevelBox)
    (stack : List (List InlineLevelBox)) : Bool :=
  match fuel with
  | 0 => false
  | fuel + 1 =>
    match boxes with
    | [] =>
      match stack with
      | [] => false -- Paragraph start
      | iter :: rest => whitespace_preserved fuel iter rest
    | box :: more =>
      match box with
      | .textRun r => ¬ r.text.endsWith " "
      | .outOfFlowAbsolutelyPositionedBox _ =>
        whitespace_preserved fuel more stack
      | .outOfFlowFloatBox _ => whitespace_preserved fuel more stack
      | .inlineBox b =>
        whitespace_preserved fuel b.children.reverse (more :: stack)

mutual

/-- An iteration bound for the `handle_leading_whitespace` walk: the
number of inline-level boxes, counting nested ones, plus one per list
node. -/
def InlineLevelBox.weight : InlineLevelBox → ℕ
  | .textRun _ => 1
  | .inlineBox (.mk _ _ _ children) => 1 + InlineLevelBox.weight_list children
  | .outOfFlowAbsolutelyPositionedBox _ => 1
  | .outOfFlowFloatBox _ => 1

def InlineLevelBox.weight_list : List InlineLevelBox → ℕ
  | [] => 0
  | b :: rest => InlineLevelBox.weight b + InlineLevelBox.weight_list rest + 1

end

/-- `handle_leading_whitespace`: whether this text run has preserved
leading whitespace, and the contents starting at the first non-whitespace
character. -/
def BlockContainerBuilder.handle_leading_whitespace
    (b : BlockContainerBuilder) (text : List Char) : Bool × List Char :=
  let starts_with_whitespace :=
    match text.head? with
    | some c => is_ascii_whitespace c
    | none => false
  if starts_with_whitespace then
    let inline_level_boxes := b.current_inline_level_boxes.reverse
    let preserved := whitespace_preserved
      (InlineLevelBox.weight_list b.current_inline_level_boxes + 2)
      inline_level_boxes []
    (preserved, text.dropWhile is_ascii_whitespace)
  else
    (false, text)

/-- `handle_text`: whitespace-collapse the text node and either extend the
current trailing text run or open a new one with the current parent
style. -/
def BlockContainerBuilder.handle_text (b : BlockContainerBuilder)
    (input : String) : Except BuildError BlockContainerBuilder :=
  let lw := b.handle_leading_whitespace input.toList
  let leading_whitespace := lw.1
  let input := lw.2
  if leading_whitespace || ¬ input.isEmpty then
    let inlines := b.current_inline_level_boxes
    match inlines.getLast? with
    | some (.textRun run) =>
      -- Append to the existing text run
      let output := run.text.toList ++
        (if leading_whitespace then [' '] else [])
      let output := collapse_loop output input.length input
      .ok (b.set_current_inline_level_boxes (inlines.dropLast ++
        [.textRun { run with text := String.mk output }]))
    | _ =>
      match b.current_parent_style with
      | none => .error .textWithoutParent
      | some parent_style =>
        let output := (if leading_whitespace then [' '] else [])
        let output := collapse_loop output input.length input
        .ok (b.set_current_inline_level_boxes (inlines ++
          [.textRun { parent_style := parent_style,
                      text := String.mk output }]))
  else
    .ok b

/-- `end_ongoing_inline_formatting_context`: asserts that no inline boxes
are open, never pushes an empty inline formatting context, and wraps the
ongoing one in an anonymous same-formatting-context block. -/
def BlockContainerBuilder.end_ongoing_inline_formatting_context
    (b : BlockContainerBuilder) : Except BuildError BlockContainerBuilder :=
  if ¬ b.ongoing_inline_boxes_stack.isEmpty then
    -- assert!(self.ongoing_inline_boxes_stack.is_empty(),
    --         "there should be no ongoing inline level boxes")
    .error .ongoingInlineBoxes
  else if b.ongoing_inline_formatting_context.inline_level_boxes.isEmpty
  then
    -- There should never be an empty inline formatting context.
    .ok b
  else
    let anonymous_style := b.anonymous_style.getD
      (ComputedValues.anonymous_inheriting_from b.parent_style)
    .ok { b with
      anonymous_style := some anonymous_style,
      block_level_boxes := b.block_level_boxes ++
        [.sameFormattingContextBlock anonymous_style
          (.inlineFormattingContext
            b.ongoing_inline_formatting_context)],
      ongoing_inline_formatting_context := .mk [] }

/-- `end_ongoing_inline_box`: pop the innermost open inline box, mark it
as the last fragment and append it to its parent's inline list. -/
def BlockContainerBuilder.end_ongoing_inline_box
    (b : BlockContainerBuilder) : Except BuildError BlockContainerBuilder :=
  match b.ongoing_inline_boxes_stack.getLast? with
  | none => .error .noOngoingInlineBox
  | some last =>
    let b := { b with
      ongoing_inline_boxes_stack := b.ongoing_inline_boxes_stack.dropLast }
    let completed := InlineBox.mk last.style last.first_fragment true
      last.children
    .ok (b.set_current_inline_level_boxes
      (b.current_inline_level_boxes ++ [.inlineBox completed]))

/-- The fragmentation pass of `handle_block_level_element`: every open
inline box yields a completed copy (current `first_fragment`,
`last_fragment = false`, taking the accumulated children), innermost
first; the live boxes stay on the stack with `first_fragment := false`
and empty children. -/
def fragment_inline_boxes (stack : List InlineBox) :
    List InlineBox × List InlineBox :=
  (stack.reverse.map fun ongoing =>
     InlineBox.mk ongoing.style ongoing.first_fragment false
       ongoing.children,
   stack.map fun ongoing =>
     InlineBox.mk ongoing.style false ongoing.last_fragment [])

/-- `handle_block_level_element`: fragment the open inline boxes around
the block, close the ongoing inline formatting context, and append the
block-level box with deferred children. -/
def BlockContainerBuilder.handle_block_level_element
    (b : BlockContainerBuilder) (element : List DomTree)
    (style : ComputedValues) (display_inside : DisplayInside) :
    Except BuildError BlockContainerBuilder :=
  let fr := fragment_inline_boxes b.ongoing_inline_boxes_stack
  let b := { b with ongoing_inline_boxes_stack := fr.2 }
  let b :=
    match fr.1 with
    | [] => b
    | last :: rest =>
      let fragmented_inline := rest.foldl
        (fun (fragmented_inline : InlineLevelBox)
             (fragmented_parent_inline_box : InlineBox) =>
          InlineLevelBox.inlineBox (InlineBox.mk
            fragmented_parent_inline_box.style
            fragmented_parent_inline_box.first_fragment
            fragmented_parent_inline_box.last_fragment
            (fragmented_parent_inline_box.children ++
              [fragmented_inline])))
        (InlineLevelBox.inlineBox last)
      { b with
        ongoing_inline_formatting_context := .mk
          (b.ongoing_inline_formatting_context.inline_level_boxes ++
            [fragmented_inline]) }
  match b.end_ongoing_inline_formatting_context with
  | .error e => .error e
  | .ok b =>
    .ok { b with
      block_level_boxes := b.block_level_boxes ++
        [(match display_inside with
          | .flow => IntermediateBlockLevelBox.sameFormattingContextBlock
              style (.deferred element))] }

mutual

/-- One step of the builder's preorder traversal. -/
def handleNode : ℕ → BlockContainerBuilder → DomTree →
    Except BuildError BlockContainerBuilder
  | 0, _, _ => .error .outOfFuel
  | fuel + 1, b, node =>
    match node with
    | .skipped => .ok b
    | .text contents => b.handle_text contents
    | .element style children => handle_element fuel b style children
  termination_by structural fuel => fuel

/-- The builder's traversal over a sibling list. -/
def handleNodes : ℕ → BlockContainerBuilder → List DomTree →
    Except BuildError BlockContainerBuilder
  | 0, _, _ => .error .outOfFuel
  | _ + 1, b, [] => .ok b
  | fuel + 1, b, node :: rest =>
    match handleNode fuel b node with
    | .error e => .error e
    | .ok b => handleNodes fuel b rest
  termination_by structural fuel => fuel

/-- `handle_element`: dispatch on the computed display.  An inline-level
element pushes an open inline box, traverses its children, and on the
ascend pops the box via `end_ongoing_inline_box`. -/
def handle_element (fuel : ℕ) (b : BlockContainerBuilder)
    (style : ComputedValues) (children : List DomTree) :
    Except BuildError BlockContainerBuilder :=
  match fuel with
  | 0 => .error .outOfFuel
  | fuel + 1 =>
    match style.box_.display with
    | .none => .ok b
    | .contents => handleNodes fuel b children
    | .other outside inside =>
      match outside with
      | .inline =>
        match inside with
        | .flow =>
          let b := { b with
            ongoing_inline_boxes_stack :=
              b.ongoing_inline_boxes_stack ++
                [InlineBox.mk style true false []] }
          match handleNodes fuel b children with
          | .error e => .error e
          | .ok b => b.end_ongoing_inline_box
      | .block =>
        -- Floats and abspos cause blockification.
        if style.box_.position.is_absolutely_positioned then
          handle_absolutely_positioned_element fuel b style children
            inside
        else if style.box_.float.is_floating then
          handle_float_element fuel b style children inside
        else
          b.handle_block_level_element children style inside
  termination_by structural fuel

/-- `handle_absolutely_positioned_element`: block-level when no inline
content is open, otherwise an eagerly built inline-level box. -/
def handle_absolutely_positioned_element (fuel : ℕ)
    (b : BlockContainerBuilder) (style : ComputedValues)
    (element : List DomTree) (display_inside : DisplayInside) :
    Except BuildError BlockContainerBuilder :=
  match fuel with
  | 0 => .error .outOfFuel
  | fuel + 1 =>
    if ¬ b.has_ongoing_inline_formatting_context then
      .ok { b with
        block_level_boxes := b.block_level_boxes ++
          [.outOfFlowAbsolutelyPositionedBox style element
            display_inside] }
    else
      match IndependentFormattingContext.build fuel style element
          display_inside with
      | .error e => .error e
      | .ok contents =>
        .ok (b.set_current_inline_level_boxes
          (b.current_inline_level_boxes ++
            [.outOfFlowAbsolutelyPositionedBox (.mk style contents)]))
  termination_by structural fuel

/-- `handle_float_element`: records `contains_floats = Yes` for the whole
container, then the same block-level/inline-level split as for
absolutely positioned elements. -/
def handle_float_element (fuel : ℕ) (b : BlockContainerBuilder)
    (style : ComputedValues) (element : List DomTree)
    (display_inside : DisplayInside) :
    Except BuildError BlockContainerBuilder :=
  match fuel with
  | 0 => .error .outOfFuel
  | fuel + 1 =>
    let b := { b with contains_floats := .yes }
    if ¬ b.has_ongoing_inline_formatting_context then
      .ok { b with
        block_level_boxes := b.block_level_boxes ++
          [.outOfFlowFloatBox style element display_inside] }
    else
      match IndependentFormattingContext.build fuel style element
          display_inside with
      | .error e => .error e
      | .ok contents =>
        .ok (b.set_current_inline_level_boxes
          (b.current_inline_level_boxes ++
            [.outOfFlowFloatBox (.mk style contents)]))
  termination_by structural fuel

/-- `BlockContainerBuilder::build`: traverse the children of the
container root, then either return the ongoing inline formatting context
directly (when it is non-empty and no block-level box was produced),
or close it and finish every accumulated intermediate box, OR-ing the
float flags. -/
def BlockContainerBuilder.build (fuel : ℕ) (children : List DomTree)
    (parent_style : Option ComputedValues) :
    Except BuildError (BlockContainer × ContainsFloats) :=
  match fuel with
  | 0 => .error .outOfFuel
  | fuel + 1 =>
    let builder : BlockContainerBuilder :=
      { block_level_boxes := [],
        ongoing_inline_formatting_context := .mk [],
        ongoing_inline_boxes_stack := [],
        anonymous_style := none,
        contains_floats := .no,
        parent_style := parent_style }
    match handleNodes fuel builder children with
    | .error e => .error e
    | .ok builder =>
      -- debug_assert!(builder.ongoing_inline_boxes_stack.is_empty())
      if ¬ (builder.ongoing_inline_formatting_context.inline_level_boxes).isEmpty ∧
          builder.block_level_boxes.isEmpty then
        .ok (.inlineFormattingContext
          builder.ongoing_inline_formatting_context,
          builder.contains_floats)
      else
        match
          (if ¬ (builder.ongoing_inline_formatting_context.inline_level_boxes).isEmpty then
            builder.end_ongoing_inline_formatting_context
          else .ok builder) with
        | .error e => .error e
        | .ok builder =>
          match finish_list fuel builder.block_level_boxes with
          | .error e => .error e
          | .ok r =>
            .ok (.blockLevelBoxes r.1, builder.contains_floats.or r.2)
  termination_by structural fuel

/-- Finishing pass over the intermediate boxes, OR-ing the float flags
(the order-preserving parallel map-reduce of `build`). -/
def finish_list (fuel : ℕ) (ibs : List IntermediateBlockLevelBox) :
    Except BuildError (List BlockLevelBox × ContainsFloats) :=
  match fuel with
  | 0 => .error .outOfFuel
  | fuel + 1 =>
    match ibs with
    | [] => .ok ([], .no)
    | ib :: rest =>
      match intermediate_finish fuel ib with
      | .error e => .error e
      | .ok r =>
        match finish_list fuel rest with
        | .error e => .error e
        | .ok rs => .ok (r.1 :: rs.1, (r.2).or rs.2)
  termination_by structural fuel

/-- `IntermediateBlockLevelBox::finish`. -/
def intermediate_finish (fuel : ℕ) (ib : IntermediateBlockLevelBox) :
    Except BuildError (BlockLevelBox × ContainsFloats) :=
  match fuel with
  | 0 => .error .outOfFuel
  | fuel + 1 =>
    match ib with
    | .sameFormattingContextBlock style contents =>
      match intermediate_container_finish fuel contents style with
      | .error e => .error e
      | .ok r =>
        .ok (.sameFormattingContextBlock style r.1, r.2)
    | .outOfFlowAbsolutelyPositionedBox style element display_inside =>
      match IndependentFormattingContext.build fuel style element
          display_inside with
      | .error e => .error e
      | .ok contents =>
        .ok (.outOfFlowAbsolutelyPositionedBox (.mk style contents),
          ContainsFloats.no)
    | .outOfFlowFloatBox style element display_inside =>
      match IndependentFormattingContext.build fuel style element
          display_inside with
      | .error e => .error e
      | .ok contents =>
        .ok (.outOfFlowFloatBox (.mk style contents), ContainsFloats.yes)
  termination_by structural fuel

/-- `IntermediateBlockContainer::finish`: a deferred container is built
recursively; an inline formatting context's floats were already taken
into account during the first phase of box construction. -/
def intermediate_container_finish (fuel : ℕ)
    (c : IntermediateBlockContainer) (style : ComputedValues) :
    Except BuildError (BlockContainer × ContainsFloats) :=
  match fuel with
  | 0 => .error .outOfFuel
  | fuel + 1 =>
    match c with
    | .deferred from_children_of =>
      BlockContainerBuilder.build fuel from_children_of (some style)
    | .inlineFormattingContext ifc =>
      .ok (.inlineFormattingContext ifc, ContainsFloats.no)
  termination_by structural fuel

/-- `IndependentFormattingContext::build`. -/
def IndependentFormattingContext.build (fuel : ℕ)
    (style : ComputedValues) (element : List DomTree)
    (display_inside : DisplayInside) :
    Except BuildError IndependentFormattingContext :=
  match fuel with
  | 0 => .error .outOfFuel
  | fuel + 1 =>
    match display_inside with
    | .flow =>
      match BlockFormattingContext.build fuel element (some style) with
      | .error e => .error e
      | .ok bfc => .ok (.flow bfc)
  termination_by structural fuel

/-- `BlockFormattingContext::build`. -/
def BlockFormattingContext.build (fuel : ℕ) (element : List DomTree)
    (parent_style : Option ComputedValues) :
    Except BuildError BlockFormattingContext :=
  match fuel with
  | 0 => .error .outOfFuel
  | fuel + 1 =>
    match BlockContainerBuilder.build fuel element parent_style with
    | .error e => .error e
    | .ok r => .ok (.mk r.1 r.2)
  termination_by structural fuel

end

/-! ## C5: whitespace collapsing -/

/-- A builder that has seen no content yet, with a present parent style
(the container root's). -/
def freshBuilder : BlockContainerBuilder :=
  { block_level_boxes := [],
    ongoing_inline_formatting_context := .mk [],
    ongoing_inline_boxes_stack := [],
    anonymous_style := none,
    contains_floats := .no,
    parent_style := some baseStyle }

/-- C5: the text node `"  a   b  "` as the first content of a block
container produces exactly one text run with text `"a b "` — leading
whitespace dropped at paragraph start, the internal whitespace run
collapsed to one space, the trailing run becoming a single trailing
space. -/
theorem whitespace_collapsing :
    freshBuilder.handle_text "  a   b  " =
      .ok { freshBuilder with
        ongoing_inline_formatting_context := .mk
          [.textRun { parent_style := baseStyle, text := "a b " }] } := rfl

/-! ## C7: block-level element splitting open inline boxes

The fragmentation pass itself is embedded faithfully in
`fragment_inline_boxes` above (completed copies carry the current
`first_fragment` and `last_fragment = false`; the live boxes stay with
`first_fragment := false` and cleared children), and
`end_ongoing_inline_box` pops with `last_fragment := true`.  But
`handle_block_level_element` then calls
`end_ongoing_inline_formatting_context`, whose `assert!` fires because
the fragmented inline boxes are — deliberately — still on the stack:
construction can never continue past the block. -/

/-- Helper: the assert of `end_ongoing_inline_formatting_context` fires
whenever the inline-box stack is non-empty. -/
theorem end_ifc_errors_of_ne_nil (b : BlockContainerBuilder)
    (h : b.ongoing_inline_boxes_stack ≠ []) :
    b.end_ongoing_inline_formatting_context = .error .ongoingInlineBoxes := by
  simp only [BlockContainerBuilder.end_ongoing_inline_formatting_context]
  rw [if_pos]
  simp [List.isEmpty_iff, h]

/-- The C7 situation as a reusable fact: a block-level element with open
inline boxes makes `handle_block_level_element` fail on the assert. -/
theorem handle_block_errors_on_open_inline_boxes
    (b : BlockContainerBuilder) (element : List DomTree)
    (style : ComputedValues) (display_inside : DisplayInside)
    (h : b.ongoing_inline_boxes_stack ≠ []) :
    b.handle_block_level_element element style display_inside =
      .error .ongoingInlineBoxes := by
  obtain ⟨x, xs, hx⟩ : ∃ x xs, b.ongoing_inline_boxes_stack = x :: xs := by
    cases hs : b.ongoing_inline_boxes_stack with
    | nil => exact absurd hs h
    | cons x xs => exact ⟨x, xs, rfl⟩
  have h2 : (fragment_inline_boxes b.ongoing_inline_boxes_stack).2 ≠ [] := by
    simp [fragment_inline_boxes, hx]
  unfold BlockContainerBuilder.handle_block_level_element
  cases hm : (fragment_inline_boxes b.ongoing_inline_boxes_stack).1 with
  | nil =>
    simp only [hm]
    rw [end_ifc_errors_of_ne_nil _ h2]
  | cons last rest =>
    simp only [hm]
    rw [end_ifc_errors_of_ne_nil _ h2]

/-- C7: whenever the builder meets a block-level in-flow element while at
least one inline box is open, `handle_block_level_element` hits the
`assert!("there should be no ongoing inline level boxes")` in
`end_ongoing_inline_formatting_context` — the claimed continuation
(fragmented copies pushed, then the block box) never happens, because
the fragmentation pass intentionally keeps the live inline boxes on the
stack and the assertion runs before they could ever be consumed. -/
theorem block_split_asserts_on_open_inline_boxes
    (b : BlockContainerBuilder) (element : List DomTree)
    (style : ComputedValues) (display_inside : DisplayInside)
    (h : b.ongoing_inline_boxes_stack ≠ []) :
    b.handle_block_level_element element style display_inside =
      .error .ongoingInlineBoxes :=
  handle_block_errors_on_open_inline_boxes b element style display_inside h

/-- An inline-level style (`display: inline`). -/
def inlineStyle : ComputedValues :=
  { baseStyle with box_ := { baseStyle.box_ with
      display := .other .inline .flow } }

/-- A builder in the middle of `<span>a <div/>…`: one open inline box
holding the text run `"a "`. -/
def spanBuilder : BlockContainerBuilder :=
  { freshBuilder with
    ongoing_inline_boxes_stack :=
      [InlineBox.mk inlineStyle true false
        [.textRun { parent_style := inlineStyle, text := "a " }]] }

theorem block_split_asserts_on_open_inline_boxes_witness :
    spanBuilder.handle_block_level_element [] baseStyle .flow =
      .error .ongoingInlineBoxes :=
  block_split_asserts_on_open_inline_boxes spanBuilder [] baseStyle .flow
    (by simp [spanBuilder, freshBuilder])

/-! ## C10: floats inside absolutely positioned boxes stay inside -/

/-- C10: `IntermediateBlockLevelBox::finish` on an
`OutOfFlowAbsolutelyPositionedBox` reports `ContainsFloats::No`
unconditionally: whatever the element's subtree holds, the finished box
pairs with `.no`, and the subtree's own float information lives only in
the nested `BlockFormattingContext` produced by the recursive build. -/
theorem abspos_finish_reports_no_floats (fuel : ℕ)
    (style : ComputedValues) (element : List DomTree)
    (display_inside : DisplayInside)
    (box : BlockLevelBox) (cf : ContainsFloats)
    (hok : intermediate_finish (fuel + 2)
        (.outOfFlowAbsolutelyPositionedBox style element display_inside) =
      .ok (box, cf)) :
    cf = .no ∧
    ∃ bfc, box = .outOfFlowAbsolutelyPositionedBox (.mk style (.flow bfc)) ∧
      BlockFormattingContext.build fuel element (some style) = .ok bfc := by
  cases display_inside
  simp only [intermediate_finish, IndependentFormattingContext.build] at hok
  cases hbfc : BlockFormattingContext.build fuel element (some style) with
  | error e => rw [hbfc] at hok; simp at hok
  | ok bfc =>
    rw [hbfc] at hok
    simp only [Except.ok.injEq, Prod.mk.injEq] at hok
    exact ⟨hok.2.symm, bfc, hok.1.symm, rfl⟩

/-- A floating block style (`float: left`). -/
def floatStyle : ComputedValues :=
  { baseStyle with box_ := { baseStyle.box_ with float := .left } }

/-- A DOM element that floats. -/
def floatChildNode : DomTree := .element floatStyle []

/-- The formatting context built for an absolutely positioned element
whose only child floats: the nested flag is `.yes`. -/
def absposFloatBfc : BlockFormattingContext :=
  .mk (.blockLevelBoxes
    [.outOfFlowFloatBox (.mk floatStyle
      (.flow (.mk (.blockLevelBoxes []) .no)))]) .yes

theorem abspos_finish_reports_no_floats_witness :
    (ContainsFloats.no = ContainsFloats.no ∧
      ∃ bfc,
        BlockLevelBox.outOfFlowAbsolutelyPositionedBox
            (.mk baseStyle (.flow absposFloatBfc)) =
          .outOfFlowAbsolutelyPositionedBox (.mk baseStyle (.flow bfc)) ∧
        BlockFormattingContext.build 8 [floatChildNode] (some baseStyle) =
          .ok bfc) ∧
    absposFloatBfc.contains_floats = .yes :=
  ⟨abspos_finish_reports_no_floats 8 baseStyle [floatChildNode] .flow
      (.outOfFlowAbsolutelyPositionedBox (.mk baseStyle (.flow absposFloatBfc)))
      .no (by rfl),
    rfl⟩


/-! ## C2: the float-in-parallel panic is unreachable for built trees

`floats_ok` is the parallel-mode requirement (no float box at any
same-formatting-context nesting level, nested independent contexts
self-consistent), `floats_seq_ok` the sequential-mode one, and
`floats_consistent` ties a formatting context's flag to its contents. -/

mutual

def BlockContainer.floats_ok : BlockContainer → Bool
  | .blockLevelBoxes bs => floats_ok_list bs
  | .inlineFormattingContext _ => true

def floats_ok_list : List BlockLevelBox → Bool
  | [] => true
  | b :: rest => b.floats_ok_box && floats_ok_list rest

def BlockLevelBox.floats_ok_box : BlockLevelBox → Bool
  | .sameFormattingContextBlock _ c => c.floats_ok
  | .independent _ c => c.floats_ifc_ok
  | .outOfFlowAbsolutelyPositionedBox _ => true
  | .outOfFlowFloatBox _ => false

def BlockContainer.floats_seq_ok : BlockContainer → Bool
  | .blockLevelBoxes bs => floats_seq_ok_list bs
  | .inlineFormattingContext _ => true

def floats_seq_ok_list : List BlockLevelBox → Bool
  | [] => true
  | b :: rest => b.floats_seq_ok_box && floats_seq_ok_list rest

def BlockLevelBox.floats_seq_ok_box : BlockLevelBox → Bool
  | .sameFormattingContextBlock _ c => c.floats_seq_ok
  | .independent _ c => c.floats_ifc_ok
  | .outOfFlowAbsolutelyPositionedBox _ => true
  | .outOfFlowFloatBox _ => true

def IndependentFormattingContext.floats_ifc_ok :
    IndependentFormattingContext → Bool
  | .flow bfc => bfc.floats_consistent

def BlockFormattingContext.floats_consistent :
    BlockFormattingContext → Bool
  | .mk c .no => c.floats_ok
  | .mk c .yes => c.floats_seq_ok

end

theorem mapM_except_error_mem {f : α → Except ε β} {xs : List α} {e : ε}
    (h : mapM_except f xs = .error e) : ∃ x ∈ xs, f x = .error e := by
  induction xs with
  | nil => simp [mapM_except] at h
  | cons x xs ih =>
    simp only [mapM_except] at h
    cases hx : f x with
    | error e2 =>
      rw [hx] at h
      injection h with h
      exact ⟨x, by simp, by rw [hx, h]⟩
    | ok y =>
      rw [hx] at h
      cases hxs : mapM_except f xs with
      | error e2 =>
        rw [hxs] at h
        injection h with h
        obtain ⟨z, hz, hfz⟩ := ih (by rw [hxs, h])
        exact ⟨z, by simp [hz], hfz⟩
      | ok ys => rw [hxs] at h; exact absurd h (by simp)

theorem patch_abspos_fragment_error {cf : List Fragment} {tr : ℕ}
    {f : AbsolutelyPositionedFragment} {e : LayoutError}
    (h : patch_abspos_fragment cf tr f = .error e) : e = .fragmentIndex := by
  simp only [patch_abspos_fragment] at h
  cases hg : cf.get? f.tree_rank with
  | none =>
    rw [hg] at h
    simp [throw, throwThe, MonadExceptOf.throw] at h
    exact h.symm
  | some frag => rw [hg] at h; simp at h

theorem in_flow_non_replaced_error {cb : ContainingBlock}
    {style : ComputedValues}
    {f : ContainingBlock → flow_relative.Vec2 Length →
      Except LayoutError LayoutResult} {e : LayoutError}
    (h : in_flow_non_replaced cb style f = .error e) :
    e = .mixedWritingModes ∨ ∃ cb2 sc, f cb2 sc = .error e := by
  simp only [in_flow_non_replaced] at h
  split at h
  · injection h with h
    exact Or.inl h.symm
  · split at h
    · rename_i heq
      injection h with h
      subst h
      exact Or.inr ⟨_, _, heq⟩
    · exact absurd h (by simp)


theorem floats_ok_list_mem {bs : List BlockLevelBox}
    (h : floats_ok_list bs = true) :
    ∀ b ∈ bs, b.floats_ok_box = true := by
  induction bs with
  | nil => simp
  | cons b rest ih =>
    simp only [floats_ok_list, Bool.and_eq_true] at h
    intro x hx
    rcases List.mem_cons.mp hx with hx | hx
    · exact hx ▸ h.1
    · exact ih h.2 x hx

theorem floats_seq_ok_list_mem {bs : List BlockLevelBox}
    (h : floats_seq_ok_list bs = true) :
    ∀ b ∈ bs, b.floats_seq_ok_box = true := by
  induction bs with
  | nil => simp
  | cons b rest ih =>
    simp only [floats_seq_ok_list, Bool.and_eq_true] at h
    intro x hx
    rcases List.mem_cons.mp hx with hx | hx
    · exact hx ▸ h.1
    · exact ih h.2 x hx

theorem enumerate_from_mem {n : ℕ} {l : List α} {p : ℕ × α}
    (h : p ∈ enumerate_from n l) : p.2 ∈ l := by
  induction l generalizing n with
  | nil => simp [enumerate_from] at h
  | cons x xs ih =>
    simp only [enumerate_from, List.mem_cons] at h
    rcases h with h | h
    · subst h; simp
    · exact List.mem_cons_of_mem _ (ih h)

theorem layout_no_float_panic (ifcL : IfcLayout) : ∀ fuel : ℕ,
    (∀ bfc cb tr, bfc.floats_consistent = true →
        BlockFormattingContext.layout ifcL fuel bfc cb tr ≠
          .error .floatInParallel) ∧
    (∀ c cb tr fc,
        (match fc with
         | none => c.floats_ok
         | some _ => c.floats_seq_ok) = true →
        BlockContainer.layout ifcL fuel c cb tr fc ≠
          .error .floatInParallel) ∧
    (∀ cb bs fc,
        (match fc with
         | none => floats_ok_list bs
         | some _ => floats_seq_ok_list bs) = true →
        layout_block_level_children ifcL fuel cb bs fc ≠
          .error .floatInParallel) ∧
    (∀ cb bs tr fc sz fr ab, floats_seq_ok_list bs = true →
        layout_children_sequential ifcL fuel cb bs tr fc sz fr ab ≠
          .error .floatInParallel) ∧
    (∀ cb b tr, b.floats_ok_box = true →
        layout_block_level_box ifcL fuel cb b tr ≠
          .error .floatInParallel) ∧
    (∀ cb b tr fc, b.floats_seq_ok_box = true →
        layout_block_level_box_sequential ifcL fuel cb b tr fc ≠
          .error .floatInParallel) ∧
    (∀ c cb tr, c.floats_ifc_ok = true →
        IndependentFormattingContext.layout ifcL fuel c cb tr ≠
          .error .floatInParallel) := by
  intro fuel
  induction fuel with
  | zero =>
    refine ⟨?_, ?_, ?_, ?_, ?_, ?_, ?_⟩ <;>
      · intros
        intro h
        simp [BlockFormattingContext.layout, BlockContainer.layout,
          layout_block_level_children, layout_children_sequential,
          layout_block_level_box, layout_block_level_box_sequential,
          IndependentFormattingContext.layout,
          throw, throwThe, MonadExceptOf.throw] at h
  | succ fuel ih =>
    obtain ⟨ih1, ih2, ih3, ih4, ih5, ih6, ih7⟩ := ih
    refine ⟨?_, ?_, ?_, ?_, ?_, ?_, ?_⟩
    · -- BlockFormattingContext.layout
      rintro ⟨c, cf⟩ cb tr hcons
      cases cf with
      | no =>
        simp only [BlockFormattingContext.layout,
          BlockFormattingContext.contains_floats, ContainsFloats.into_list,
          Option.map_none', BlockFormattingContext.contents]
        exact ih2 c cb tr none (by
          simpa [BlockFormattingContext.floats_consistent] using hcons)
      | yes =>
        simp only [BlockFormattingContext.layout,
          BlockFormattingContext.contains_floats, ContainsFloats.into_list,
          Option.map_some', BlockFormattingContext.contents]
        exact ih2 c cb tr (some _) (by
          simpa [BlockFormattingContext.floats_consistent] using hcons)
    · -- BlockContainer.layout
      intro c cb tr fc hc
      cases c with
      | inlineFormattingContext ifc =>
        simp [BlockContainer.layout]
      | blockLevelBoxes bs =>
        intro h
        simp only [BlockContainer.layout] at h
        cases hch : layout_block_level_children ifcL fuel cb bs fc with
        | error e =>
          rw [hch] at h
          simp only [except_bind_error] at h
          injection h with h
          exact ih3 cb bs fc
            (by simpa [BlockContainer.floats_ok,
              BlockContainer.floats_seq_ok] using hc) (h ▸ hch)
        | ok r =>
          rw [hch] at h
          obtain ⟨fr2, ab2, sz2⟩ := r
          simp only [except_bind_ok] at h
          cases hpat : mapM_except (patch_abspos_fragment fr2 tr) ab2 with
          | error e =>
            rw [hpat] at h
            simp only [except_bind_error] at h
            injection h with h
            obtain ⟨x, _, hx⟩ := mapM_except_error_mem (h ▸ hpat)
            exact absurd (patch_abspos_fragment_error hx) (by simp)
          | ok patched =>
            rw [hpat] at h
            simp at h
    · -- layout_block_level_children
      intro cb bs fc hc
      cases fc with
      | some flc =>
        simp only [layout_block_level_children]
        exact ih4 cb bs 0 flc Length.zero [] [] (by simpa using hc)
      | none =>
        intro h
        simp only [layout_block_level_children] at h
        cases hm : mapM_except
            (fun p => layout_block_level_box ifcL fuel cb p.2 p.1)
            (enumerate_from 0 bs) with
        | error e =>
          rw [hm] at h
          simp only [except_bind_error] at h
          injection h with h
          obtain ⟨p, hp, hx⟩ := mapM_except_error_mem (h ▸ hm)
          exact ih5 cb p.2 p.1
            (floats_ok_list_mem (by simpa using hc) p.2
              (enumerate_from_mem hp)) hx
        | ok results =>
          rw [hm] at h
          simp at h
    · -- layout_children_sequential
      intro cb bs tr fc sz fr ab hc
      cases bs with
      | nil => simp [layout_children_sequential]
      | cons b rest =>
        intro h
        simp only [layout_children_sequential] at h
        simp only [floats_seq_ok_list, Bool.and_eq_true] at hc
        cases hb : layout_block_level_box_sequential ifcL fuel cb b tr fc with
        | error e =>
          rw [hb] at h
          simp only [except_bind_error] at h
          injection h with h
          exact ih6 cb b tr fc hc.1 (h ▸ hb)
        | ok r =>
          rw [hb] at h
          obtain ⟨frag, nab⟩ := r
          simp only [except_bind_ok] at h
          exact ih4 cb rest (tr + 1) _ _ _ _ hc.2 h
    · -- layout_block_level_box (parallel)
      intro cb b tr hb
      cases b with
      | sameFormattingContextBlock style c =>
        intro h
        simp only [layout_block_level_box] at h
        rcases in_flow_non_replaced_error h with hmix | ⟨cb2, sc, hcall⟩
        · exact absurd hmix (by simp)
        · exact ih2 c cb2 tr none
            (by simpa [BlockLevelBox.floats_ok_box] using hb) hcall
      | independent style c =>
        intro h
        simp only [layout_block_level_box] at h
        rcases in_flow_non_replaced_error h with hmix | ⟨cb2, sc, hcall⟩
        · exact absurd hmix (by simp)
        · exact ih7 c cb2 tr
            (by simpa [BlockLevelBox.floats_ok_box] using hb) hcall
      | outOfFlowAbsolutelyPositionedBox a =>
        simp [layout_block_level_box]
      | outOfFlowFloatBox fb =>
        simp [BlockLevelBox.floats_ok_box] at hb
    · -- layout_block_level_box_sequential
      intro cb b tr fc hb
      cases b with
      | sameFormattingContextBlock style c =>
        intro h
        simp only [layout_block_level_box_sequential] at h
        rcases in_flow_non_replaced_error h with hmix | ⟨cb2, sc, hcall⟩
        · exact absurd hmix (by simp)
        · exact ih2 c cb2 tr (some _)
            (by simpa [BlockLevelBox.floats_seq_ok_box] using hb) hcall
      | independent style c =>
        intro h
        simp only [layout_block_level_box_sequential] at h
        rcases in_flow_non_replaced_error h with hmix | ⟨cb2, sc, hcall⟩
        · exact absurd hmix (by simp)
        · exact ih7 c cb2 tr
            (by simpa [BlockLevelBox.floats_seq_ok_box] using hb) hcall
      | outOfFlowAbsolutelyPositionedBox a =>
        simp [layout_block_level_box_sequential]
      | outOfFlowFloatBox fb =>
        simp [layout_block_level_box_sequential]
    · -- IndependentFormattingContext.layout
      intro c cb tr hc
      obtain ⟨bfc⟩ := c
      simp only [IndependentFormattingContext.layout]
      exact ih1 bfc cb tr
        (by simpa [IndependentFormattingContext.floats_ifc_ok] using hc)


theorem contains_floats_or_eq_no {a b : ContainsFloats} :
    a.or b = .no ↔ a = .no ∧ b = .no := by
  cases a <;> cases b <;> simp [ContainsFloats.or]

theorem build_floats_consistent : ∀ fuel : ℕ,
    (∀ ch ps c cf, BlockContainerBuilder.build fuel ch ps = .ok (c, cf) →
        (cf = .no → c.floats_ok = true) ∧ c.floats_seq_ok = true) ∧
    (∀ ibs bs cf, finish_list fuel ibs = .ok (bs, cf) →
        (cf = .no → floats_ok_list bs = true) ∧
          floats_seq_ok_list bs = true) ∧
    (∀ ib bx cf, intermediate_finish fuel ib = .ok (bx, cf) →
        (cf = .no → bx.floats_ok_box = true) ∧
          bx.floats_seq_ok_box = true) ∧
    (∀ ic s bc cf, intermediate_container_finish fuel ic s = .ok (bc, cf) →
        (cf = .no → bc.floats_ok = true) ∧ bc.floats_seq_ok = true) ∧
    (∀ e ps bfc, BlockFormattingContext.build fuel e ps = .ok bfc →
        bfc.floats_consistent = true) := by
  intro fuel
  induction fuel with
  | zero =>
    refine ⟨?_, ?_, ?_, ?_, ?_⟩ <;>
      · intros
        rename_i h
        simp [BlockContainerBuilder.build, finish_list,
          intermediate_finish, intermediate_container_finish,
          BlockFormattingContext.build] at h
  | succ fuel ih =>
    obtain ⟨ih1, ih2, ih3, ih4, ih5⟩ := ih
    refine ⟨?_, ?_, ?_, ?_, ?_⟩
    · -- BlockContainerBuilder.build
      intro ch ps c cf hok
      simp only [BlockContainerBuilder.build] at hok
      split at hok
      · exact absurd hok (by simp)
      · split at hok
        · simp only [Except.ok.injEq, Prod.mk.injEq] at hok
          obtain ⟨hc, hcf⟩ := hok
          subst hc
          exact ⟨fun _ => by simp [BlockContainer.floats_ok],
            by simp [BlockContainer.floats_seq_ok]⟩
        · split at hok
          · exact absurd hok (by simp)
          · split at hok
            · exact absurd hok (by simp)
            · rename_i r heq
              simp only [Except.ok.injEq, Prod.mk.injEq] at hok
              obtain ⟨hc, hcf⟩ := hok
              subst hc
              subst hcf
              obtain ⟨h1, h2⟩ := ih2 _ r.1 r.2 (by rw [heq])
              refine ⟨fun hno => ?_, ?_⟩
              · simp only [BlockContainer.floats_ok]
                exact h1 (contains_floats_or_eq_no.mp hno).2
              · simp only [BlockContainer.floats_seq_ok]
                exact h2
    · -- finish_list
      intro ibs bs cf hok
      cases ibs with
      | nil =>
        simp only [finish_list, Except.ok.injEq, Prod.mk.injEq] at hok
        obtain ⟨hb, hcf⟩ := hok
        subst hb
        subst hcf
        exact ⟨fun _ => rfl, rfl⟩
      | cons ib rest =>
        simp only [finish_list] at hok
        cases heq1 : intermediate_finish fuel ib with
        | error e => rw [heq1] at hok; exact absurd hok (by simp)
        | ok r =>
          rw [heq1] at hok
          cases heq2 : finish_list fuel rest with
          | error e => rw [heq2] at hok; exact absurd hok (by simp)
          | ok rs =>
            rw [heq2] at hok
            simp only [Except.ok.injEq, Prod.mk.injEq] at hok
            obtain ⟨hb, hcf⟩ := hok
            subst hb
            subst hcf
            obtain ⟨h1, h2⟩ := ih3 _ r.1 r.2 (by rw [heq1])
            obtain ⟨h3, h4⟩ := ih2 _ rs.1 rs.2 (by rw [heq2])
            refine ⟨fun hno => ?_, ?_⟩
            · obtain ⟨ha, hb⟩ := contains_floats_or_eq_no.mp hno
              simp only [floats_ok_list, Bool.and_eq_true]
              exact ⟨h1 ha, h3 hb⟩
            · simp only [floats_seq_ok_list, Bool.and_eq_true]
              exact ⟨h2, h4⟩
    · -- intermediate_finish
      intro ib bx cf hok
      simp only [intermediate_finish] at hok
      split at hok
      · split at hok
        · exact absurd hok (by simp)
        · rename_i r heq
          simp only [Except.ok.injEq, Prod.mk.injEq] at hok
          obtain ⟨hb, hcf⟩ := hok
          subst hb
          subst hcf
          obtain ⟨h1, h2⟩ := ih4 _ _ r.1 r.2 (by rw [heq])
          exact ⟨fun hno => by
              simpa [BlockLevelBox.floats_ok_box] using h1 hno,
            by simpa [BlockLevelBox.floats_seq_ok_box] using h2⟩
      · split at hok
        · exact absurd hok (by simp)
        · simp only [Except.ok.injEq, Prod.mk.injEq] at hok
          obtain ⟨hb, hcf⟩ := hok
          subst hb
          subst hcf
          exact ⟨fun _ => by simp [BlockLevelBox.floats_ok_box],
            by simp [BlockLevelBox.floats_seq_ok_box]⟩
      · split at hok
        · exact absurd hok (by simp)
        · simp only [Except.ok.injEq, Prod.mk.injEq] at hok
          obtain ⟨hb, hcf⟩ := hok
          subst hb
          subst hcf
          exact ⟨fun hno => absurd hno (by simp),
            by simp [BlockLevelBox.floats_seq_ok_box]⟩
    · -- intermediate_container_finish
      intro ic s bc cf hok
      simp only [intermediate_container_finish] at hok
      split at hok
      · exact ih1 _ _ _ _ hok
      · simp only [Except.ok.injEq, Prod.mk.injEq] at hok
        obtain ⟨hb, hcf⟩ := hok
        subst hb
        subst hcf
        exact ⟨fun _ => by simp [BlockContainer.floats_ok],
          by simp [BlockContainer.floats_seq_ok]⟩
    · -- BlockFormattingContext.build
      intro e ps bfc hok
      simp only [BlockFormattingContext.build] at hok
      cases heq : BlockContainerBuilder.build fuel e ps with
      | error e2 => rw [heq] at hok; exact absurd hok (by simp)
      | ok r =>
        rw [heq] at hok
        injection hok with hok
        subst hok
        obtain ⟨c2, cf2⟩ := r
        obtain ⟨h1, h2⟩ := ih1 _ _ c2 cf2 heq
        cases cf2 with
        | no =>
          simp only [BlockFormattingContext.floats_consistent]
          exact h1 rfl
        | yes =>
          simp only [BlockFormattingContext.floats_consistent]
          exact h2


/-- C2: the "encountered a float box in parallel layout" panic is
unreachable for built box trees: for every block formatting context
produced by the builder, laying it out (entering through
`BlockFormattingContext::layout`, which establishes a float context and
hence the sequential path exactly when `contains_floats` is `Yes`) never
reaches the float-box arm of the parallel path, whatever the containing
block, tree rank, fuel and inline-layout semantics. -/
theorem float_panic_unreachable (ifcL : IfcLayout)
    (build_fuel layout_fuel : ℕ) (element : List DomTree)
    (parent_style : Option ComputedValues) (bfc : BlockFormattingContext)
    (cb : ContainingBlock) (tree_rank : ℕ)
    (hbuild : BlockFormattingContext.build build_fuel element parent_style =
      .ok bfc) :
    BlockFormattingContext.layout ifcL layout_fuel bfc cb tree_rank ≠
      .error .floatInParallel :=
  (layout_no_float_panic ifcL layout_fuel).1 bfc cb tree_rank
    ((build_floats_consistent build_fuel).2.2.2.2 element parent_style bfc
      hbuild)

/-- An inline layout producing nothing (the theorems hold for every
`IfcLayout`, this one makes the witness concrete). -/
def trivialIfcL : IfcLayout := fun _ _ _ => ([], [], Length.zero)

theorem float_panic_unreachable_witness :
    BlockFormattingContext.layout trivialIfcL 10 absposFloatBfc sampleCB 0 ≠
      .error .floatInParallel :=
  float_panic_unreachable trivialIfcL 8 10 [floatChildNode]
    (some baseStyle) absposFloatBfc sampleCB 0 (by rfl)


/-! ## C8: no empty inline formatting context is ever pushed

`no_empty_ifc` walks a finished container and checks, at every nesting
level, that each inline formatting context stored in it is non-empty;
`good` is the corresponding invariant on the builder state during the
first construction phase. -/

mutual

def BlockContainer.no_empty_ifc : BlockContainer → Bool
  | .blockLevelBoxes bs => no_empty_ifc_list bs
  | .inlineFormattingContext (.mk bs) =>
    ¬ bs.isEmpty && inline_no_empty_ifc_list bs

def no_empty_ifc_list : List BlockLevelBox → Bool
  | [] => true
  | b :: rest => b.no_empty_ifc_box && no_empty_ifc_list rest

def BlockLevelBox.no_empty_ifc_box : BlockLevelBox → Bool
  | .sameFormattingContextBlock _ c => c.no_empty_ifc
  | .independent _ c => c.no_empty_ifc_in
  | .outOfFlowAbsolutelyPositionedBox (.mk _ c) => c.no_empty_ifc_in
  | .outOfFlowFloatBox (.mk _ c) => c.no_empty_ifc_in

def IndependentFormattingContext.no_empty_ifc_in :
    IndependentFormattingContext → Bool
  | .flow (.mk c _) => c.no_empty_ifc

def InlineLevelBox.no_empty_ifc_il : InlineLevelBox → Bool
  | .textRun _ => true
  | .inlineBox (.mk _ _ _ ch) => inline_no_empty_ifc_list ch
  | .outOfFlowAbsolutelyPositionedBox (.mk _ c) => c.no_empty_ifc_in
  | .outOfFlowFloatBox (.mk _ c) => c.no_empty_ifc_in

def inline_no_empty_ifc_list : List InlineLevelBox → Bool
  | [] => true
  | b :: rest => b.no_empty_ifc_il && inline_no_empty_ifc_list rest

end

/-- Phase-1 goodness of an intermediate box: a stored inline formatting
context is non-empty (and recursively good); deferred contents are
checked when built. -/
def IntermediateBlockContainer.no_empty_ifc_ic :
    IntermediateBlockContainer → Bool
  | .deferred _ => true
  | .inlineFormattingContext (.mk bs) =>
    ¬ bs.isEmpty && inline_no_empty_ifc_list bs

def IntermediateBlockLevelBox.no_empty_ifc_ib :
    IntermediateBlockLevelBox → Bool
  | .sameFormattingContextBlock _ c => c.no_empty_ifc_ic
  | .outOfFlowAbsolutelyPositionedBox _ _ _ => true
  | .outOfFlowFloatBox _ _ _ => true

def ib_no_empty_ifc_list : List IntermediateBlockLevelBox → Bool
  | [] => true
  | b :: rest => b.no_empty_ifc_ib && ib_no_empty_ifc_list rest

/-- The builder-state invariant of the first construction phase: all
accumulated intermediates are good, and every already-built inline-level
box (in the ongoing inline formatting context or in an open inline box)
is good. -/
def BlockContainerBuilder.good (b : BlockContainerBuilder) : Bool :=
  ib_no_empty_ifc_list b.block_level_boxes &&
  inline_no_empty_ifc_list
    b.ongoing_inline_formatting_context.inline_level_boxes &&
  b.ongoing_inline_boxes_stack.all
    (fun ib => inline_no_empty_ifc_list ib.children)

theorem inline_no_empty_ifc_list_append {l l' : List InlineLevelBox} :
    inline_no_empty_ifc_list (l ++ l') =
      (inline_no_empty_ifc_list l && inline_no_empty_ifc_list l') := by
  induction l with
  | nil => simp [inline_no_empty_ifc_list]
  | cons b rest ih =>
    simp [inline_no_empty_ifc_list, ih, Bool.and_assoc]

theorem ib_no_empty_ifc_list_append
    {l l' : List IntermediateBlockLevelBox} :
    ib_no_empty_ifc_list (l ++ l') =
      (ib_no_empty_ifc_list l && ib_no_empty_ifc_list l') := by
  induction l with
  | nil => simp [ib_no_empty_ifc_list]
  | cons b rest ih =>
    simp [ib_no_empty_ifc_list, ih, Bool.and_assoc]

theorem no_empty_ifc_list_append {l l' : List BlockLevelBox} :
    no_empty_ifc_list (l ++ l') =
      (no_empty_ifc_list l && no_empty_ifc_list l') := by
  induction l with
  | nil => simp [no_empty_ifc_list]
  | cons b rest ih =>
    simp [no_empty_ifc_list, ih, Bool.and_assoc]

theorem inline_no_empty_ifc_list_dropLast {l : List InlineLevelBox}
    (h : inline_no_empty_ifc_list l = true) :
    inline_no_empty_ifc_list l.dropLast = true := by
  induction l with
  | nil => simp [inline_no_empty_ifc_list]
  | cons b rest ih =>
    cases rest with
    | nil => simp [inline_no_empty_ifc_list]
    | cons c cs =>
      simp only [inline_no_empty_ifc_list, Bool.and_eq_true] at h
      simp only [List.dropLast_cons₂, inline_no_empty_ifc_list,
        Bool.and_eq_true]
      refine ⟨h.1, ?_⟩
      have := ih (by simp [inline_no_empty_ifc_list, h.2.1, h.2.2])
      simpa [inline_no_empty_ifc_list] using this

theorem inline_no_empty_ifc_list_mem {l : List InlineLevelBox}
    (h : inline_no_empty_ifc_list l = true) :
    ∀ b ∈ l, b.no_empty_ifc_il = true := by
  induction l with
  | nil => simp
  | cons b rest ih =>
    simp only [inline_no_empty_ifc_list, Bool.and_eq_true] at h
    intro x hx
    rcases List.mem_cons.mp hx with hx | hx
    · exact hx ▸ h.1
    · exact ih h.2 x hx

theorem inline_no_empty_ifc_list_getLast {l : List InlineLevelBox}
    {b : InlineLevelBox} (h : inline_no_empty_ifc_list l = true)
    (hg : l.getLast? = some b) : b.no_empty_ifc_il = true :=
  inline_no_empty_ifc_list_mem h b (List.mem_of_getLast?_eq_some hg)


theorem no_empty_ifc_ic_ifc (ifc : InlineFormattingContext) :
    IntermediateBlockContainer.no_empty_ifc_ic
        (.inlineFormattingContext ifc) =
      (¬ ifc.inline_level_boxes.isEmpty &&
        inline_no_empty_ifc_list ifc.inline_level_boxes) := by
  cases ifc
  rfl

theorem no_empty_ifc_ifc (ifc : InlineFormattingContext) :
    BlockContainer.no_empty_ifc (.inlineFormattingContext ifc) =
      (¬ ifc.inline_level_boxes.isEmpty &&
        inline_no_empty_ifc_list ifc.inline_level_boxes) := by
  cases ifc
  rfl

theorem good_current (b : BlockContainerBuilder) (h : b.good = true) :
    inline_no_empty_ifc_list b.current_inline_level_boxes = true := by
  simp only [BlockContainerBuilder.good, Bool.and_eq_true] at h
  simp only [BlockContainerBuilder.current_inline_level_boxes]
  cases hg : b.ongoing_inline_boxes_stack.getLast? with
  | none => exact h.1.2
  | some last =>
    exact List.all_eq_true.mp h.2 last (List.mem_of_getLast?_eq_some hg)

theorem good_set_current (b : BlockContainerBuilder)
    (l : List InlineLevelBox) (h : b.good = true)
    (hl : inline_no_empty_ifc_list l = true) :
    (b.set_current_inline_level_boxes l).good = true := by
  simp only [BlockContainerBuilder.good, Bool.and_eq_true] at h
  obtain ⟨⟨h1, h2⟩, h3⟩ := h
  simp only [BlockContainerBuilder.set_current_inline_level_boxes]
  cases hg : b.ongoing_inline_boxes_stack.getLast? with
  | none =>
    simp only [BlockContainerBuilder.good, Bool.and_eq_true,
      InlineFormattingContext.inline_level_boxes]
    exact ⟨⟨h1, hl⟩, h3⟩
  | some last =>
    have hdrop : ∀ x ∈ b.ongoing_inline_boxes_stack.dropLast,
        inline_no_empty_ifc_list x.children = true :=
      fun x hx => List.all_eq_true.mp h3 x (List.dropLast_subset _ hx)
    simp only [BlockContainerBuilder.good, Bool.and_eq_true,
      List.all_append, List.all_cons, List.all_nil, Bool.and_true]
    exact ⟨⟨h1, h2⟩, List.all_eq_true.mpr hdrop,
      by simp [InlineBox.children, hl]⟩


theorem handle_text_good (b : BlockContainerBuilder) (s : String)
    {b' : BlockContainerBuilder} (h : b.good = true)
    (hok : b.handle_text s = .ok b') : b'.good = true := by
  simp only [BlockContainerBuilder.handle_text] at hok
  split at hok
  · split at hok
    · injection hok with hok
      subst hok
      apply good_set_current _ _ h
      rw [inline_no_empty_ifc_list_append]
      simp [inline_no_empty_ifc_list, InlineLevelBox.no_empty_ifc_il,
        inline_no_empty_ifc_list_dropLast (good_current b h)]
    · split at hok
      · exact absurd hok (by simp)
      · injection hok with hok
        subst hok
        apply good_set_current _ _ h
        rw [inline_no_empty_ifc_list_append]
        simp [inline_no_empty_ifc_list, InlineLevelBox.no_empty_ifc_il,
          good_current b h]
  · injection hok with hok
    subst hok
    exact h

theorem end_ongoing_inline_box_good (b : BlockContainerBuilder)
    {b' : BlockContainerBuilder} (h : b.good = true)
    (hok : b.end_ongoing_inline_box = .ok b') : b'.good = true := by
  simp only [BlockContainerBuilder.end_ongoing_inline_box] at hok
  cases hg : b.ongoing_inline_boxes_stack.getLast? with
  | none => rw [hg] at hok; exact absurd hok (by simp)
  | some last =>
    rw [hg] at hok
    obtain ⟨ls, lf, ll, lch⟩ := last
    injection hok with hok
    subst hok
    simp only [BlockContainerBuilder.good, Bool.and_eq_true] at h
    obtain ⟨⟨h1, h2⟩, h3⟩ := h
    have hlast : inline_no_empty_ifc_list lch = true :=
      List.all_eq_true.mp h3 _ (List.mem_of_getLast?_eq_some hg)
    have hb2 : BlockContainerBuilder.good
        { b with ongoing_inline_boxes_stack :=
            b.ongoing_inline_boxes_stack.dropLast } = true := by
      simp only [BlockContainerBuilder.good, Bool.and_eq_true]
      exact ⟨⟨h1, h2⟩, List.all_eq_true.mpr fun x hx =>
        List.all_eq_true.mp h3 x (List.dropLast_subset _ hx)⟩
    apply good_set_current _ _ hb2
    rw [inline_no_empty_ifc_list_append]
    simp [inline_no_empty_ifc_list, InlineLevelBox.no_empty_ifc_il,
      InlineBox.children, hlast, good_current _ hb2]

theorem end_ifc_good (b : BlockContainerBuilder)
    {b' : BlockContainerBuilder} (h : b.good = true)
    (hok : b.end_ongoing_inline_formatting_context = .ok b') :
    b'.good = true := by
  simp only [BlockContainerBuilder.end_ongoing_inline_formatting_context]
    at hok
  split at hok
  · exact absurd hok (by simp)
  · split at hok
    · injection hok with hok
      subst hok
      exact h
    · rename_i hne
      injection hok with hok
      subst hok
      simp only [BlockContainerBuilder.good, Bool.and_eq_true] at h
      obtain ⟨⟨h1, h2⟩, h3⟩ := h
      simp only [BlockContainerBuilder.good, Bool.and_eq_true,
        ib_no_empty_ifc_list_append, Bool.and_eq_true,
        InlineFormattingContext.inline_level_boxes]
      refine ⟨⟨⟨h1, ?_⟩, by simp [inline_no_empty_ifc_list]⟩, h3⟩
      simp only [ib_no_empty_ifc_list,
        IntermediateBlockLevelBox.no_empty_ifc_ib, no_empty_ifc_ic_ifc,
        Bool.and_eq_true]
      refine ⟨⟨?_, h2⟩, trivial⟩
      simpa using hne


theorem handle_block_good (b : BlockContainerBuilder)
    (element : List DomTree) (style : ComputedValues)
    (di : DisplayInside) {b' : BlockContainerBuilder} (h : b.good = true)
    (hok : b.handle_block_level_element element style di = .ok b') :
    b'.good = true := by
  cases di
  cases hs : b.ongoing_inline_boxes_stack with
  | cons x xs =>
    rw [handle_block_errors_on_open_inline_boxes b element style .flow
      (by simp [hs])] at hok
    exact absurd hok (by simp)
  | nil =>
    simp only [BlockContainerBuilder.handle_block_level_element,
      fragment_inline_boxes, hs, List.map_nil, List.reverse_nil] at hok
    cases he : BlockContainerBuilder.end_ongoing_inline_formatting_context
        { b with ongoing_inline_boxes_stack := [] } with
    | error e => rw [he] at hok; exact absurd hok (by simp)
    | ok b2 =>
      rw [he] at hok
      injection hok with hok
      subst hok
      have hgb : BlockContainerBuilder.good
          { b with ongoing_inline_boxes_stack := [] } = true := by
        simp only [BlockContainerBuilder.good, Bool.and_eq_true] at h ⊢
        exact ⟨h.1, by simp⟩
      have hb2 := end_ifc_good _ hgb he
      simp only [BlockContainerBuilder.good, Bool.and_eq_true] at hb2 ⊢
      refine ⟨⟨?_, hb2.1.2⟩, hb2.2⟩
      rw [ib_no_empty_ifc_list_append]
      simp [ib_no_empty_ifc_list, hb2.1.1,
        IntermediateBlockLevelBox.no_empty_ifc_ib,
        IntermediateBlockContainer.no_empty_ifc_ic]


theorem build_no_empty_ifc : ∀ fuel : ℕ,
    (∀ b n b2, b.good = true → handleNode fuel b n = .ok b2 →
        b2.good = true) ∧
    (∀ b ns b2, b.good = true → handleNodes fuel b ns = .ok b2 →
        b2.good = true) ∧
    (∀ b s ch b2, b.good = true → handle_element fuel b s ch = .ok b2 →
        b2.good = true) ∧
    (∀ b s e di b2, b.good = true →
        handle_absolutely_positioned_element fuel b s e di = .ok b2 →
        b2.good = true) ∧
    (∀ b s e di b2, b.good = true →
        handle_float_element fuel b s e di = .ok b2 → b2.good = true) ∧
    (∀ ch ps c cf, BlockContainerBuilder.build fuel ch ps = .ok (c, cf) →
        c.no_empty_ifc = true) ∧
    (∀ ibs bs cf, ib_no_empty_ifc_list ibs = true →
        finish_list fuel ibs = .ok (bs, cf) →
        no_empty_ifc_list bs = true) ∧
    (∀ ib bx cf, ib.no_empty_ifc_ib = true →
        intermediate_finish fuel ib = .ok (bx, cf) →
        bx.no_empty_ifc_box = true) ∧
    (∀ ic s bc cf, ic.no_empty_ifc_ic = true →
        intermediate_container_finish fuel ic s = .ok (bc, cf) →
        bc.no_empty_ifc = true) ∧
    (∀ s e di c, IndependentFormattingContext.build fuel s e di = .ok c →
        c.no_empty_ifc_in = true) ∧
    (∀ e ps bfc, BlockFormattingContext.build fuel e ps = .ok bfc →
        bfc.contents.no_empty_ifc = true) := by
  intro fuel
  induction fuel with
  | zero =>
    refine ⟨?_, ?_, ?_, ?_, ?_, ?_, ?_, ?_, ?_, ?_, ?_⟩ <;>
      · intros
        rename_i h
        simp [handleNode, handleNodes, handle_element,
          handle_absolutely_positioned_element, handle_float_element,
          BlockContainerBuilder.build, finish_list, intermediate_finish,
          intermediate_container_finish,
          IndependentFormattingContext.build,
          BlockFormattingContext.build] at h
  | succ fuel ih =>
    obtain ⟨ih1, ih2, ih3, ih4, ih5, ih6, ih7, ih8, ih9, ih10, ih11⟩ := ih
    refine ⟨?_, ?_, ?_, ?_, ?_, ?_, ?_, ?_, ?_, ?_, ?_⟩
    · -- handleNode
      intro b n b2 hg hok
      cases n with
      | skipped =>
        simp only [handleNode, Except.ok.injEq] at hok
        exact hok ▸ hg
      | text contents => exact handle_text_good b contents hg hok
      | element style children => exact ih3 b style children b2 hg hok
    · -- handleNodes
      intro b ns b2 hg hok
      cases ns with
      | nil =>
        simp only [handleNodes, Except.ok.injEq] at hok
        exact hok ▸ hg
      | cons node rest =>
        simp only [handleNodes] at hok
        cases heq : handleNode fuel b node with
        | error e => rw [heq] at hok; exact absurd hok (by simp)
        | ok bmid =>
          rw [heq] at hok
          exact ih2 bmid rest b2 (ih1 b node bmid hg heq) hok
    · -- handle_element
      intro b s ch b2 hg hok
      simp only [handle_element] at hok
      cases hd : s.box_.display with
      | none =>
        simp only [hd] at hok
        injection hok with hok
        exact hok ▸ hg
      | contents =>
        simp only [hd] at hok
        exact ih2 b ch b2 hg hok
      | other outside inside =>
        cases outside with
        | block =>
          simp only [hd] at hok
          split at hok
          · exact ih4 _ _ _ _ _ hg hok
          · split at hok
            · exact ih5 _ _ _ _ _ hg hok
            · exact handle_block_good _ _ _ _ hg hok
        | inline =>
          cases inside
          simp only [hd] at hok
          have hgb : BlockContainerBuilder.good
              { b with ongoing_inline_boxes_stack :=
                  b.ongoing_inline_boxes_stack ++
                    [InlineBox.mk s true false []] } = true := by
            simp only [BlockContainerBuilder.good, Bool.and_eq_true,
              List.all_append, List.all_cons, List.all_nil,
              Bool.and_true] at hg ⊢
            exact ⟨hg.1, hg.2, by simp [InlineBox.children,
              inline_no_empty_ifc_list]⟩
          cases heq : handleNodes fuel
              { b with ongoing_inline_boxes_stack :=
                  b.ongoing_inline_boxes_stack ++
                    [InlineBox.mk s true false []] } ch with
          | error e => rw [heq] at hok; exact absurd hok (by simp)
          | ok bmid =>
            rw [heq] at hok
            exact end_ongoing_inline_box_good bmid
              (ih2 _ ch bmid hgb heq) hok
    · -- handle_absolutely_positioned_element
      intro b s e di b2 hg hok
      simp only [handle_absolutely_positioned_element] at hok
      split at hok
      · injection hok with hok
        subst hok
        simp only [BlockContainerBuilder.good, Bool.and_eq_true] at hg ⊢
        refine ⟨⟨?_, hg.1.2⟩, hg.2⟩
        rw [ib_no_empty_ifc_list_append]
        simp [ib_no_empty_ifc_list, hg.1.1,
          IntermediateBlockLevelBox.no_empty_ifc_ib]
      · split at hok
        · exact absurd hok (by simp)
        · rename_i contents heq
          injection hok with hok
          subst hok
          apply good_set_current _ _ hg
          rw [inline_no_empty_ifc_list_append]
          simp [inline_no_empty_ifc_list, InlineLevelBox.no_empty_ifc_il,
            good_current b hg, ih10 _ _ _ _ heq]
    · -- handle_float_element
      intro b s e di b2 hg hok
      simp only [handle_float_element] at hok
      have hg2 : BlockContainerBuilder.good
          { b with contains_floats := .yes } = true := by
        simpa [BlockContainerBuilder.good] using hg
      split at hok
      · injection hok with hok
        subst hok
        simp only [BlockContainerBuilder.good, Bool.and_eq_true]
          at hg2 ⊢
        refine ⟨⟨?_, hg2.1.2⟩, hg2.2⟩
        rw [ib_no_empty_ifc_list_append]
        simp [ib_no_empty_ifc_list, hg2.1.1,
          IntermediateBlockLevelBox.no_empty_ifc_ib]
      · split at hok
        · exact absurd hok (by simp)
        · rename_i contents heq
          injection hok with hok
          subst hok
          apply good_set_current _ _ hg2
          rw [inline_no_empty_ifc_list_append]
          simp [inline_no_empty_ifc_list, InlineLevelBox.no_empty_ifc_il,
            good_current _ hg2, ih10 _ _ _ _ heq]
    · -- BlockContainerBuilder.build
      intro ch ps c cf hok
      simp only [BlockContainerBuilder.build] at hok
      split at hok
      · exact absurd hok (by simp)
      · rename_i builder heq
        have hgb : builder.good = true := by
          refine ih2 _ ch builder ?_ heq
          simp [BlockContainerBuilder.good, ib_no_empty_ifc_list,
            inline_no_empty_ifc_list,
            InlineFormattingContext.inline_level_boxes]
        simp only [BlockContainerBuilder.good, Bool.and_eq_true] at hgb
        split at hok
        · rename_i hcond
          simp only [Except.ok.injEq, Prod.mk.injEq] at hok
          obtain ⟨hc, hcf⟩ := hok
          subst hc
          rw [no_empty_ifc_ifc]
          simp only [Bool.and_eq_true]
          exact ⟨by simpa using hcond.1, hgb.1.2⟩
        · split at hok
          · exact absurd hok (by simp)
          · rename_i builder3 he
            have hgb3 : builder3.good = true := by
              split at he
              · exact end_ifc_good builder (by
                  simp only [BlockContainerBuilder.good,
                    Bool.and_eq_true]
                  exact hgb) he
              · injection he with he
                subst he
                simp only [BlockContainerBuilder.good, Bool.and_eq_true]
                exact hgb
            split at hok
            · exact absurd hok (by simp)
            · rename_i r hfin
              simp only [Except.ok.injEq, Prod.mk.injEq] at hok
              obtain ⟨hc, hcf⟩ := hok
              subst hc
              simp only [BlockContainer.no_empty_ifc]
              refine ih7 _ r.1 r.2 ?_ (by rw [hfin])
              simp only [BlockContainerBuilder.good,
                Bool.and_eq_true] at hgb3
              exact hgb3.1.1
    · -- finish_list
      intro ibs bs cf hgl hok
      cases ibs with
      | nil =>
        simp only [finish_list, Except.ok.injEq, Prod.mk.injEq] at hok
        obtain ⟨hb, hcf⟩ := hok
        subst hb
        exact rfl
      | cons ib rest =>
        simp only [finish_list] at hok
        simp only [ib_no_empty_ifc_list, Bool.and_eq_true] at hgl
        cases heq1 : intermediate_finish fuel ib with
        | error e => rw [heq1] at hok; exact absurd hok (by simp)
        | ok r =>
          rw [heq1] at hok
          cases heq2 : finish_list fuel rest with
          | error e => rw [heq2] at hok; exact absurd hok (by simp)
          | ok rs =>
            rw [heq2] at hok
            simp only [Except.ok.injEq, Prod.mk.injEq] at hok
            obtain ⟨hb, hcf⟩ := hok
            subst hb
            simp only [no_empty_ifc_list, Bool.and_eq_true]
            exact ⟨ih8 _ r.1 r.2 hgl.1 (by rw [heq1]),
              ih7 _ rs.1 rs.2 hgl.2 (by rw [heq2])⟩
    · -- intermediate_finish
      intro ib bx cf hgi hok
      simp only [intermediate_finish] at hok
      split at hok
      · rename_i style contents
        cases heq : intermediate_container_finish fuel contents style with
        | error e => rw [heq] at hok; exact absurd hok (by simp)
        | ok r =>
          rw [heq] at hok
          simp only [Except.ok.injEq, Prod.mk.injEq] at hok
          obtain ⟨hb, hcf⟩ := hok
          subst hb
          simp only [BlockLevelBox.no_empty_ifc_box]
          refine ih9 _ _ r.1 r.2 ?_ (by rw [heq])
          simpa [IntermediateBlockLevelBox.no_empty_ifc_ib] using hgi
      · rename_i style element di
        cases heq : IndependentFormattingContext.build fuel style element
            di with
        | error e => rw [heq] at hok; exact absurd hok (by simp)
        | ok contents =>
          rw [heq] at hok
          simp only [Except.ok.injEq, Prod.mk.injEq] at hok
          obtain ⟨hb, hcf⟩ := hok
          subst hb
          simpa [BlockLevelBox.no_empty_ifc_box] using ih10 _ _ _ _ heq
      · rename_i style element di
        cases heq : IndependentFormattingContext.build fuel style element
            di with
        | error e => rw [heq] at hok; exact absurd hok (by simp)
        | ok contents =>
          rw [heq] at hok
          simp only [Except.ok.injEq, Prod.mk.injEq] at hok
          obtain ⟨hb, hcf⟩ := hok
          subst hb
          simpa [BlockLevelBox.no_empty_ifc_box] using ih10 _ _ _ _ heq
    · -- intermediate_container_finish
      intro ic s bc cf hgi hok
      simp only [intermediate_container_finish] at hok
      split at hok
      · exact ih6 _ _ _ _ hok
      · simp only [Except.ok.injEq, Prod.mk.injEq] at hok
        obtain ⟨hb, hcf⟩ := hok
        subst hb
        rename_i ifc
        obtain ⟨bs⟩ := ifc
        rw [no_empty_ifc_ifc]
        simpa [IntermediateBlockContainer.no_empty_ifc_ic,
          InlineFormattingContext.inline_level_boxes] using hgi
    · -- IndependentFormattingContext.build
      intro s e di c hok
      simp only [IndependentFormattingContext.build] at hok
      cases di
      cases heq : BlockFormattingContext.build fuel e (some s) with
      | error e2 => rw [heq] at hok; exact absurd hok (by simp)
      | ok bfc =>
        rw [heq] at hok
        injection hok with hok
        subst hok
        obtain ⟨bc, bcf⟩ := bfc
        simpa [IndependentFormattingContext.no_empty_ifc_in,
          BlockFormattingContext.contents] using ih11 _ _ _ heq
    · -- BlockFormattingContext.build
      intro e ps bfc hok
      simp only [BlockFormattingContext.build] at hok
      cases heq : BlockContainerBuilder.build fuel e ps with
      | error e2 => rw [heq] at hok; exact absurd hok (by simp)
      | ok r =>
        rw [heq] at hok
        injection hok with hok
        subst hok
        simpa [BlockFormattingContext.contents] using
          ih6 _ _ r.1 r.2 (by rw [heq])


/-- C8: no block container produced by `BlockContainerBuilder::build`
holds an empty inline formatting context: at every nesting level of the
result, a same-formatting-context block whose contents are an inline
formatting context, and a container returned directly as an inline
formatting context, has at least one inline-level box. -/
theorem no_empty_inline_formatting_context (fuel : ℕ)
    (children : List DomTree) (parent_style : Option ComputedValues)
    (container : BlockContainer) (cf : ContainsFloats)
    (hok : BlockContainerBuilder.build fuel children parent_style =
      .ok (container, cf)) :
    container.no_empty_ifc = true :=
  (build_no_empty_ifc fuel).2.2.2.2.2.1 children parent_style container
    cf hok

theorem no_empty_inline_formatting_context_witness :
    BlockContainer.no_empty_ifc
      (.blockLevelBoxes
        [.sameFormattingContextBlock baseStyle
          (.inlineFormattingContext (.mk
            [.textRun { parent_style := baseStyle, text := "hi" }])),
         .sameFormattingContextBlock baseStyle
          (.blockLevelBoxes [])]) = true :=
  no_empty_inline_formatting_context 8
    [.text "hi", .element baseStyle []] (some baseStyle) _ .no (by rfl)

end Victor
